import Mathlib

/-!
# Sharded UUIDs (`uuid.go`)

A shallow embedding of `uuid.go` of the `sharding` package: the 16-byte
identifier built by `NewUUID`, its decoding by `Split`, and the 36-character
text form written by `AppendValue` / `String` and read by `ParseUUID`.

Conventions of the embedding:

* a Go `byte` is a `Fin 256`; a Go `[]byte` is an `Option (List Byte)`, where
  `none` is the `nil` slice (the source tests `u == nil`);
* a Go `int64` is an `Int`, arithmetic that can overflow goes through `wrap64`;
  a Go `uint64` is a `Nat` below `2 ^ 64`;
* a Go `error` is an `Option GoError`, `none` being the `nil` error;
* a run-time panic (index out of range) is the `none` of an `Option` result;
* the outcome of `rand.Read` and the collaborator function `types.AppendNull`
  are parameters;
* `AppendValue` is given twice: on values, and (`AppendValueMem`) on a memory of backing
  arrays in which the buffer and the UUID may share storage.
-/

namespace Sharding

/-! ## Machine integers and slices -/

/-- Go `byte`. -/
abbrev Byte := Fin 256

/-- Go `[]byte`; `none` is the nil slice. -/
abbrev Slice := Option (List Byte)

/-- The elements of a slice (the nil slice has none). -/
def Slice.data (s : Slice) : List Byte := s.getD []

/-- Go `len(s)`. -/
def len (s : Slice) : Nat := s.data.length

/-- Go `append(s, xs...)`: appending nothing to the nil slice leaves it nil. -/
def goAppend (s : Slice) (xs : List Byte) : Slice :=
  match s, xs with
  | none, [] => none
  | _, _ => some (s.data ++ xs)

/-- Go `s[lo:hi]` on the elements, for `lo ≤ hi ≤ len(s)`. -/
def slice (b : List Byte) (lo hi : Nat) : List Byte := (b.take hi).drop lo

/-- The buffer `b` after the sub-slice starting at `lo` (which shares `b`'s storage)
has been overwritten with `s`. -/
def splice (b : List Byte) (lo : Nat) (s : List Byte) : List Byte :=
  b.take lo ++ s ++ b.drop (lo + s.length)

/-- Conversion `byte(x)` of an integer: the low 8 bits. -/
def toByte (x : Int) : Byte := ⟨(x % 256).toNat, by omega⟩

/-- Conversion `byte(x)` of an unsigned integer: the low 8 bits. -/
def natToByte (x : Nat) : Byte := ⟨x % 256, Nat.mod_lt _ (by decide)⟩

/-- Wrap-around of a mathematical integer into the `int64` range. -/
def wrap64 (x : Int) : Int := (x + 2 ^ 63) % 2 ^ 64 - 2 ^ 63

/-- Conversion `uint64(x)` of an `int64`. -/
def toUint64 (x : Int) : Nat := (x % 2 ^ 64).toNat

/-- Conversion `int64(n)` of a `uint64`. -/
def toInt64 (n : Nat) : Int := wrap64 (n : Int)

/-! ## `time.Time` -/

/-- An instant as Go's `time.Time` exposes it: `Unix()` seconds and `Nanosecond()`. -/
structure Time where
  sec : Int
  nsec : Int
deriving DecidableEq

/-- Go `time.Unix(sec, nsec)`: nanoseconds outside `[0, 999999999]` are carried
into the seconds. -/
def timeUnix (sec nsec : Int) : Time :=
  if nsec < 0 ∨ nsec ≥ 1000000000 then
    let n := Int.tdiv nsec 1000000000
    let sec1 := wrap64 (sec + n)
    let nsec1 := wrap64 (nsec - wrap64 (n * 1000000000))
    if nsec1 < 0 then ⟨wrap64 (sec1 - 1), wrap64 (nsec1 + 1000000000)⟩
    else ⟨sec1, nsec1⟩
  else ⟨sec, nsec⟩

/-- Source `unixMicrosecond`: `tm.Unix()*1e6 + int64(tm.Nanosecond())/1e3`. -/
def unixMicrosecond (tm : Time) : Int :=
  wrap64 (wrap64 (tm.sec * 1000000) + Int.tdiv tm.nsec 1000)

/-- Source `fromUnixMicrosecond`. -/
def fromUnixMicrosecond (n : Int) : Time :=
  let secs := Int.tdiv n 1000000
  timeUnix secs (wrap64 (wrap64 (n - wrap64 (secs * 1000000)) * 1000))

/-! ## `encoding/binary` big-endian -/

/-- Go `binary.BigEndian.PutUint64`: the eight bytes written for `v`. -/
def putUint64 (v : Nat) : List Byte :=
  [natToByte (v >>> 56), natToByte (v >>> 48), natToByte (v >>> 40), natToByte (v >>> 32),
   natToByte (v >>> 24), natToByte (v >>> 16), natToByte (v >>> 8), natToByte v]

/-- Go `binary.BigEndian.Uint64` on the first eight bytes; `none` when there are
fewer than eight (the run-time panic). -/
def uint64BE : List Byte → Option Nat
  | b0 :: b1 :: b2 :: b3 :: b4 :: b5 :: b6 :: b7 :: _ =>
    some (b7.val ||| b6.val <<< 8 ||| b5.val <<< 16 ||| b4.val <<< 24 |||
      b3.val <<< 32 ||| b2.val <<< 40 ||| b1.val <<< 48 ||| b0.val <<< 56)
  | _ => none

/-! ## `NewUUID` and `Split` -/

def uuidLen : Nat := 16
def uuidHexLen : Nat := 36

/-- Go `[]byte` of a UUID. -/
abbrev UUID := Slice

/-- Source `NewUUID`; `rnd` holds the eight bytes `rand.Read` puts into `b[8:]`
(`rnd 0` lands in `b[8]`, ..., `rnd 7` in `b[15]`). -/
def NewUUID (rnd : Fin 8 → Byte) (shard : Int) (tm : Time) : UUID :=
  let shard := Int.tmod shard 2048
  let b : List Byte := List.replicate uuidLen 0
  let b := splice b 0 (putUint64 (toUint64 (unixMicrosecond tm)))
  let b := splice b 8 (List.ofFn rnd)
  let b := b.set 8 (natToByte (((b.getD 8 0).val &&& (255 ^^^ 0x7)) ||| (toByte (shard >>> (8 : Nat))).val))
  let b := b.set 9 (toByte shard)
  some b

/-- Source `UUID.Split`; `none` is the index-out-of-range panic of `b[:8]`, `b[8]`
or `b[9]`. The operands `int64(b[8])` and `int64(b[9])` are non-negative, so the
bit operations on `shardId` are those of the naturals. -/
def Split (u : UUID) : Option (Int × Time) :=
  let b := u.data
  match uint64BE b with
  | none => none
  | some v =>
    let tm := fromUnixMicrosecond (toInt64 v)
    match b.get? 8 with
    | none => none
    | some b8 =>
      let shardId : Nat := 0
      let shardId := shardId ||| ((b8.val &&& 0x7) <<< 8)
      match b.get? 9 with
      | none => none
      | some b9 =>
        let shardId := shardId ||| b9.val
        some ((shardId : Int), tm)


/-! ## `encoding/hex` -/

/-- Go `encoding/hex`: `hextable = "0123456789abcdef"`. -/
def hextable : List Byte :=
  [48, 49, 50, 51, 52, 53, 54, 55, 56, 57, 97, 98, 99, 100, 101, 102]

/-- Loop of Go `hex.Encode`: `dst[j] = hextable[v>>4]; dst[j+1] = hextable[v&0x0f]; j += 2`. -/
def hexEncodeLoop : List Byte → Nat → List Byte → List Byte
  | dst, _, [] => dst
  | dst, j, v :: vs =>
    let dst := dst.set j (hextable.getD (v.val >>> 4) 0)
    let dst := dst.set (j + 1) (hextable.getD (v.val &&& 0x0f) 0)
    hexEncodeLoop dst (j + 2) vs

/-- Go `hex.Encode(dst, src)`: the contents of `dst` afterwards (every call of the
source passes a `dst` of `2 * len(src)` bytes, so no write is out of range). -/
def hexEncode (dst src : List Byte) : List Byte := hexEncodeLoop dst 0 src

/-- Go `encoding/hex` `fromHexChar`: the value of a hexadecimal digit, of either
letter case; `none` when `c` is not one. -/
def fromHexChar (c : Byte) : Option Byte :=
  if 48 ≤ c.val ∧ c.val ≤ 57 then some (c - 48)
  else if 97 ≤ c.val ∧ c.val ≤ 102 then some (c - 97 + 10)
  else if 65 ≤ c.val ∧ c.val ≤ 70 then some (c - 65 + 10)
  else none

/-- The errors of Go `hex.Decode`. -/
inductive HexError where
  | errLength
  | invalidByte (c : Byte)
deriving DecidableEq

/-- Loop of Go `hex.Decode`: pairs of digits are decoded into `dst[i]` until the
source ends or a byte that is no hexadecimal digit is met; what was written before
the error stays in `dst`. A source of odd length ends in the length error, unless its
last byte is no hexadecimal digit, which is reported first. (The sources the program
passes have even length.) -/
def hexDecodeLoop : List Byte → Nat → List Byte → List Byte × Option HexError
  | dst, _, [] => (dst, none)
  | dst, _, [p] =>
    match fromHexChar p with
    | none => (dst, some (HexError.invalidByte p))
    | some _ => (dst, some HexError.errLength)
  | dst, i, p :: q :: rest =>
    match fromHexChar p with
    | none => (dst, some (HexError.invalidByte p))
    | some a =>
      match fromHexChar q with
      | none => (dst, some (HexError.invalidByte q))
      | some b => hexDecodeLoop (dst.set i (natToByte ((a.val <<< 4) ||| b.val))) (i + 1) rest

/-- Go `hex.Decode(dst, src)`: the contents of `dst` afterwards, and the error. -/
def hexDecode (dst src : List Byte) : List Byte × Option HexError := hexDecodeLoop dst 0 src

/-! ## Text form: `ParseUUID`, `AppendValue`, `String` -/

/-- The errors the source builds with `fmt.Errorf`: the format and its argument. -/
inductive GoError where
  /-- Error `fmt.Errorf("sharding: invalid UUID: %s", b)` of `ParseUUID`. -/
  | invalidUUIDText (b : Slice)
  /-- Error `fmt.Errorf("sharding: invalid UUID: % x", b)` of `AppendValue`. -/
  | invalidUUIDHex (b : Slice)
deriving DecidableEq

/-- The statement `hex.Decode(u[lo:hi], src)` with its results dropped: the
contents of `u` afterwards (`u[lo:hi]` shares the storage of `u`). -/
def decodeInto (u : List Byte) (lo hi : Nat) (src : List Byte) : List Byte :=
  splice u lo (hexDecode (slice u lo hi) src).1

/-- Source `ParseUUID`. The five results of `hex.Decode` are dropped, as in the
source; only what each call left in `u` is kept. -/
def ParseUUID (b : Slice) : UUID × Option GoError :=
  if len b ≠ uuidHexLen then (none, some (GoError.invalidUUIDText b))
  else
    let src := b.data
    let u : List Byte := List.replicate uuidLen 0
    let u := decodeInto u 0 4 (slice src 0 8)
    let u := decodeInto u 4 6 (slice src 9 13)
    let u := decodeInto u 6 8 (slice src 14 18)
    let u := decodeInto u 8 10 (slice src 19 23)
    let u := decodeInto u 10 u.length (slice src 24 src.length)
    (some u, none)

/-- The quote byte `AppendValue` writes before and after the text: `"` for
`quote == 2`, the single quote for `quote == 1`, nothing otherwise. -/
def appendQuote (b : Slice) (quote : Int) : Slice :=
  if quote = 2 then goAppend b [34]
  else if quote = 1 then goAppend b [39]
  else b

/-- The statement `hex.Encode(bb[lo:hi], src)`: the contents of `bb` afterwards
(`bb[lo:hi]` shares the storage of `bb`). -/
def encodeInto (bb : List Byte) (lo hi : Nat) (src : List Byte) : List Byte :=
  splice bb lo (hexEncode (slice bb lo hi) src)

/-- Source `UUID.AppendValue`, on values: `u` and `b` are taken to have storage of their
own (`AppendValueMem` below is the same function on a memory where they may share a backing
array); `appendNull` is the collaborator `types.AppendNull`. -/
def AppendValue (appendNull : Slice → Int → Slice) (u : UUID) (b : Slice) (quote : Int) :
    Slice × Option GoError :=
  match u with
  | none => (appendNull b quote, none)
  | some ub =>
    if ub.length ≠ uuidLen then (none, some (GoError.invalidUUIDHex b))
    else
      let b := appendQuote b quote
      let b := goAppend b (List.replicate uuidHexLen 0)
      let off := len b - uuidHexLen
      let bb := slice b.data off (len b)
      let bb := encodeInto bb 0 8 (slice ub 0 4)
      let bb := bb.set 8 45
      let bb := encodeInto bb 9 13 (slice ub 4 6)
      let bb := bb.set 13 45
      let bb := encodeInto bb 14 18 (slice ub 6 8)
      let bb := bb.set 18 45
      let bb := encodeInto bb 19 23 (slice ub 8 10)
      let bb := bb.set 23 45
      let bb := encodeInto bb 24 bb.length (slice ub 10 ub.length)
      let b : Slice := some (splice b.data off bb)
      let b := appendQuote b quote
      (b, none)

/-- Source `UUID.String`: `string(b)` of `b, _ := u.AppendValue(nil, 0)`. -/
def String (appendNull : Slice → Int → Slice) (u : UUID) : List Byte :=
  (AppendValue appendNull u none 0).1.data

/-! ## Specification-side vocabulary for the text form -/

/-- A lowercase hexadecimal digit: `0`-`9` or `a`-`f`. -/
def isLowerHexDigit (c : Byte) : Prop := (48 ≤ c.val ∧ c.val ≤ 57) ∨ (97 ≤ c.val ∧ c.val ≤ 102)

/-- A hexadecimal digit of either letter case. -/
def isHexDigit (c : Byte) : Prop := isLowerHexDigit c ∨ (65 ≤ c.val ∧ c.val ≤ 70)

instance (c : Byte) : Decidable (isLowerHexDigit c) := by unfold isLowerHexDigit; infer_instance

instance (c : Byte) : Decidable (isHexDigit c) := by unfold isHexDigit; infer_instance

/-- The character of the hexadecimal digit of value `n` (`n < 16`), lowercase. -/
def hexDigit (n : Nat) : Byte := if n < 10 then natToByte (48 + n) else natToByte (87 + n)

/-- The two-digit hexadecimal encoding of a byte: high digit, then low digit. -/
def twoDigitHex (v : Byte) : List Byte := [hexDigit (v.val / 16), hexDigit (v.val % 16)]

/-- The two-digit encodings of the bytes of `l`, in order. -/
def hexText (l : List Byte) : List Byte := (l.map twoDigitHex).flatten

/-- The canonical text shape: 36 characters, `-` at offsets 8, 13, 18 and 23, a
lowercase hexadecimal digit at every other offset. -/
def isCanonicalText (t : List Byte) : Prop :=
  t.length = 36 ∧ ∀ i, i < 36 →
    if i = 8 ∨ i = 13 ∨ i = 18 ∨ i = 23 then t.getD i 0 = 45 else isLowerHexDigit (t.getD i 0)

instance (t : List Byte) : Decidable (isCanonicalText t) := by
  unfold isCanonicalText; infer_instance

/-- The quote bytes `AppendValue` wraps the text in: the single quote for
`quote = 1`, the double quote for `quote = 2`, nothing for any other value. -/
def quoteBytes (quote : Int) : List Byte :=
  if quote = 1 then [39] else if quote = 2 then [34] else []

/-- The text `t` is `s` with some of its letters `a`-`f` turned to upper case: same
length, and at every offset either the same byte or the upper-case letter of a
lowercase letter `a`-`f` of `s`. -/
def isCaseVariantOf (s t : List Byte) : Prop :=
  t.length = s.length ∧ ∀ i, i < s.length →
    t.getD i 0 = s.getD i 0 ∨
      (97 ≤ (s.getD i 0).val ∧ (s.getD i 0).val ≤ 102 ∧ (t.getD i 0).val + 32 = (s.getD i 0).val)

instance (s t : List Byte) : Decidable (isCaseVariantOf s t) := by
  unfold isCaseVariantOf; infer_instance

/-- Bytewise (unsigned, lexicographic) strict order, as `bytes.Compare(a, b) < 0`. -/
def bytesLess : List Byte → List Byte → Bool
  | [], [] => false
  | [], _ :: _ => true
  | _ :: _, [] => false
  | a :: as, b :: bs => decide (a.val < b.val) || (decide (a = b) && bytesLess as bs)

/-! ## `Value` and `Scan` -/

/-- Source `UUID.Value`: `return u.String(), nil`. -/
def Value (appendNull : Slice → Int → Slice) (u : UUID) : List Byte × Option GoError :=
  (String appendNull u, none)

/-- The dynamic value of the `interface{}` argument of `Scan`. -/
inductive Iface where
  /-- The nil interface (a database NULL). -/
  | nil
  /-- A value of type `[]byte` (which may itself be the nil slice). -/
  | bytes (b : Slice)
  /-- A value of any other type. -/
  | other
deriving DecidableEq

/-- How a call of `Scan` ends: it returns an error value, or it panics; `u` is what
the receiver `*u` holds at that moment. -/
inductive ScanResult where
  | returned (u : UUID) (err : Option GoError)
  | panicked (u : UUID)
deriving DecidableEq

/-- Source `UUID.Scan`. After `if b == nil { *u = nil }` control goes on to the type
assertion `b.([]byte)`, which panics unless `b` holds a `[]byte`. -/
def Scan (u : UUID) (b : Iface) : ScanResult :=
  let u := if b = Iface.nil then none else u
  match b with
  | Iface.bytes bs =>
    let r := ParseUUID bs
    if r.2 ≠ none then ScanResult.returned u r.2
    else ScanResult.returned r.1 none
  | _ => ScanResult.panicked u

/-! ## The integer identifier: SQL `SHARD._next_id` and `SHARD.next_id` -/

/-- Wrap-around of a mathematical integer into the `int` (32-bit) range. -/
def wrap32 (x : Int) : Int := (x + 2 ^ 31) % 2 ^ 32 - 2 ^ 31

/-- PostgreSQL `bigint << int`: the 64-bit shift, bits moved past bit 63 are lost. -/
def shl64 (a : Int) (k : Nat) : Int := wrap64 (a * 2 ^ k)

/-- PostgreSQL `int << int`: the 32-bit shift. -/
def shl32 (a : Int) (k : Nat) : Int := wrap32 (a * 2 ^ k)

/-- PostgreSQL `bigint | bigint`: bitwise OR of the two's-complement bit patterns. -/
def or64 (a b : Int) : Int := toInt64 (toUint64 a ||| toUint64 b)

def our_epoch : Int := 1262304000000
def max_shard_id : Int := 2048
def max_seq_id : Int := 4096

/-- SQL function `SHARD._next_id(tm, shard_id, seq_id)` of `sqlFuncs`; `ms` is the value
of `floor(extract(epoch FROM tm) * 1000)::bigint`, the milliseconds of `tm` since the Unix
epoch. (`%` of PostgreSQL truncates like Go's; `shard_id` is an `int`, `id` a `bigint`.) -/
def _next_id (ms : Int) (shard_id : Int) (seq_id : Int) : Int :=
  let shard_id := Int.tmod shard_id max_shard_id
  let seq_id := Int.tmod seq_id max_seq_id
  let id := shl64 (ms - our_epoch) 23
  let id := or64 id (shl32 shard_id 12)
  let id := or64 id seq_id
  id

/-- SQL function `SHARD.next_id()`: `_next_id(clock_timestamp(), SHARD_ID, nextval(...))`;
`ms` is the clock reading in milliseconds, `shardId` the value substituted for `SHARD_ID`
and `nextval` the result of `nextval('SHARD.id_seq')`. -/
def next_id (ms : Int) (shardId : Int) (nextval : Int) : Int := _next_id ms shardId nextval

/-! ## The cluster -/

/-- Modelled from the spec: the `Cluster` of the package (its source file `cluster.go` is
not among the sources, only its callers are): an ordered sequence of physical
connections, here named by numbers, and a fixed logical shard count. -/
structure Cluster where
  connections : List Nat
  nshards : Int
deriving DecidableEq

/-- Modelled from the spec: the handle `Cluster.Shard` returns (the package's type
`Shard`, absent from the sources): the logical shard index, which names the schema
`shard_<index>`, and the physical connection it is bound to. -/
structure ShardHandle where
  index : Int
  connection : Option Nat
deriving DecidableEq

/-- Modelled from the spec: `NewCluster(dbs, nshards)`, absent from the sources;
construction fails (`none`) when the connection sequence is empty or `nshards < 1`. -/
def NewCluster (dbs : List Nat) (nshards : Int) : Option Cluster :=
  if dbs = [] ∨ nshards < 1 then none else some ⟨dbs, nshards⟩

/-- Modelled from the spec: `Cluster.Shard(key)`, absent from the sources: the logical
shard index is `s = key mod N` with the Euclidean (non-negative) remainder, and the handle
is bound to `connections[s mod P]`. -/
def Cluster.Shard (cl : Cluster) (key : Int) : ShardHandle :=
  let s := Int.emod key cl.nshards
  ⟨s, cl.connections.get? (Int.emod s cl.connections.length).toNat⟩

/-! ## `AppendValue` on memory

`AppendValue` above works on values: `u` and `b` are lists of bytes with storage of their
own. In Go a slice is a window on a backing array, `append` writes into the spare capacity
of `b`'s array when there is room, and `u` may live in the same array. The definitions below
are the same function on such a memory. -/

/-- A Go slice value: the number of its backing array, and its offset, length and
capacity in that array. -/
structure SliceRef where
  arr : Nat
  off : Nat
  len : Nat
  cap : Nat
deriving DecidableEq

/-- Memory: the contents of the backing arrays, by number, and how many arrays have been
allocated so far. -/
structure Mem where
  arrays : Nat → List Byte
  next : Nat

/-- The bytes a slice shows. -/
def Mem.read (m : Mem) (s : SliceRef) : List Byte :=
  slice (m.arrays s.arr) s.off (s.off + s.len)

/-- The value of a slice that may be nil. -/
def Mem.readSlice (m : Mem) (s : Option SliceRef) : Slice := s.map m.read

/-- Go `s[i]`, read. -/
def Mem.index (m : Mem) (s : SliceRef) (i : Nat) : Byte := (m.arrays s.arr).getD (s.off + i) 0

/-- Go `s[i] = x`: one byte of the backing array is overwritten. -/
def Mem.store (m : Mem) (s : SliceRef) (i : Nat) (x : Byte) : Mem :=
  ⟨Function.update m.arrays s.arr ((m.arrays s.arr).set (s.off + i) x), m.next⟩

/-- A new backing array holding `xs`, and the slice of all of it. (Go may give a fresh
array more capacity than asked; no other slice shows that spare room.) -/
def Mem.alloc (m : Mem) (xs : List Byte) : Mem × SliceRef :=
  (⟨Function.update m.arrays m.next xs, m.next + 1⟩, ⟨m.next, 0, xs.length, xs.length⟩)

/-- Go `s[lo:hi]`. -/
def subslice (s : SliceRef) (lo hi : Nat) : SliceRef := ⟨s.arr, s.off + lo, hi - lo, s.cap - lo⟩

/-- Go `append(s, xs...)` on memory: when the capacity of `s` has room the bytes are written
into its backing array, right after its last element; otherwise a new array is allocated
and the elements of `s` are copied into it. -/
def memAppend (m : Mem) (s : Option SliceRef) (xs : List Byte) : Mem × Option SliceRef :=
  match s with
  | none =>
    if xs = [] then (m, none)
    else ((m.alloc xs).1, some (m.alloc xs).2)
  | some r =>
    if r.len + xs.length ≤ r.cap then
      (⟨Function.update m.arrays r.arr (splice (m.arrays r.arr) (r.off + r.len) xs), m.next⟩,
        some ⟨r.arr, r.off, r.len + xs.length, r.cap⟩)
    else ((m.alloc (m.read r ++ xs)).1, some (m.alloc (m.read r ++ xs)).2)

/-- Loop of Go `hex.Encode(dst, src)` on memory: at step `i` the byte `src[i]` is read from
memory as it is then, and `dst[2i]`, `dst[2i+1]` are written. -/
def hexEncodeMemLoop (dst src : SliceRef) : Mem → Nat → Nat → Mem
  | m, _, 0 => m
  | m, i, n + 1 =>
    let v := m.index src i
    let m := m.store dst (2 * i) (hextable.getD (v.val >>> 4) 0)
    let m := m.store dst (2 * i + 1) (hextable.getD (v.val &&& 0x0f) 0)
    hexEncodeMemLoop dst src m (i + 1) n

/-- Go `hex.Encode(dst, src)` on memory. -/
def hexEncodeMem (m : Mem) (dst src : SliceRef) : Mem := hexEncodeMemLoop dst src m 0 src.len

/-- The quote step of `AppendValue` on memory. -/
def memAppendQuote (m : Mem) (b : Option SliceRef) (quote : Int) : Mem × Option SliceRef :=
  if quote = 2 then memAppend m b [34]
  else if quote = 1 then memAppend m b [39]
  else (m, b)

/-- Lines 78-86 of `AppendValue` on memory: the five groups and the four dashes are written
into `bb`, the bytes of `u` being read from memory as the writing goes. -/
def encodeText (m : Mem) (bb u : SliceRef) : Mem :=
  let m := hexEncodeMem m (subslice bb 0 8) (subslice u 0 4)
  let m := m.store bb 8 45
  let m := hexEncodeMem m (subslice bb 9 13) (subslice u 4 6)
  let m := m.store bb 13 45
  let m := hexEncodeMem m (subslice bb 14 18) (subslice u 6 8)
  let m := m.store bb 18 45
  let m := hexEncodeMem m (subslice bb 19 23) (subslice u 8 10)
  let m := m.store bb 23 45
  hexEncodeMem m (subslice bb 24 bb.len) (subslice u 10 u.len)

/-- Source `UUID.AppendValue` on memory: the memory afterwards, the returned slice and the
error; `appendNull` is the collaborator `types.AppendNull`. -/
def AppendValueMem (appendNull : Mem → Option SliceRef → Int → Mem × Option SliceRef)
    (m : Mem) (u b : Option SliceRef) (quote : Int) : Mem × Option SliceRef × Option GoError :=
  match u with
  | none => ((appendNull m b quote).1, (appendNull m b quote).2, none)
  | some ur =>
    if ur.len ≠ uuidLen then (m, none, some (GoError.invalidUUIDHex (m.readSlice b)))
    else
      let r1 := memAppendQuote m b quote
      let r2 := memAppend r1.1 r1.2 (List.replicate uuidHexLen 0)
      match r2.2 with
      | none => (r2.1, none, none)
      | some br =>
        let bb := subslice br (br.len - uuidHexLen) br.len
        let m := encodeText r2.1 bb ur
        let r3 := memAppendQuote m (some br) quote
        (r3.1, r3.2, none)

/-- The slice `r` lies inside its backing array and shows the bytes `data` there. -/
def Shows (m : Mem) (r : SliceRef) (data : List Byte) : Prop :=
  ∃ P R, m.arrays r.arr = P ++ (data ++ R) ∧ P.length = r.off ∧ data.length = r.len ∧
    r.len ≤ r.cap ∧ r.cap ≤ r.len + R.length

/-- The buffer `s` is nil, or it is a slice inside its backing array and that array is not
array number `ua`; `data` is what it shows. -/
def ShowsApart (m : Mem) (s : Option SliceRef) (data : List Byte) (ua : Nat) : Prop :=
  match s with
  | none => data = []
  | some r => Shows m r data ∧ r.arr ≠ ua

/-! ## Arithmetic of the machine integers -/

theorem tdiv_cases (a b : Int) (hb : 0 < b) :
    Int.tdiv a b = if 0 ≤ a then a / b else -((-a) / b) := by
  split
  · next h => exact Int.tdiv_eq_ediv h (le_of_lt hb)
  · next h =>
    have h1 : Int.tdiv (-a) b = (-a) / b := Int.tdiv_eq_ediv (by omega) (le_of_lt hb)
    rw [Int.neg_tdiv] at h1
    omega

theorem tmod_cases (a b : Int) (hb : 0 < b) :
    Int.tmod a b = if 0 ≤ a then a % b else -((-a) % b) := by
  rw [Int.tmod_def, tdiv_cases a b hb]
  split
  · rw [Int.emod_def]
  · rw [Int.emod_def]; ring

theorem low3_of_or (x y : Nat) : ((x &&& (255 ^^^ 0x7)) ||| y) &&& 0x7 = y % 8 := by
  have e : (255 ^^^ 0x7 : Nat) &&& 0x7 = 0 := by decide
  rw [Nat.and_distrib_right, Nat.and_assoc, e, Nat.and_zero, Nat.zero_or]
  rw [show (0x7 : Nat) = 2 ^ 3 - 1 by norm_num, Nat.and_pow_two_sub_one_eq_mod]

theorem shl8_or (h l : Nat) (hl : l < 256) : (h <<< 8) ||| l = h * 256 + l := by
  rw [Nat.shiftLeft_eq, Nat.mul_comm]
  exact (Nat.mul_add_lt_is_or (show l < 2 ^ 8 by simpa using hl) h).symm

theorem natToByte_val_of_lt (x : Nat) (h : x < 256) : (natToByte x).val = x := by
  simp [natToByte, Nat.mod_eq_of_lt h]

theorem toByte_val (x : Int) : ((toByte x).val : Int) = x % 256 := by
  simp only [toByte]
  omega

/-! ## `NewUUID` followed by `Split` -/

/-- The bytes `NewUUID` returns. -/
theorem NewUUID_bytes (rnd : Fin 8 → Byte) (shard : Int) (tm : Time) :
    NewUUID rnd shard tm = some (putUint64 (toUint64 (unixMicrosecond tm)) ++
      [natToByte (((rnd 0).val &&& (255 ^^^ 0x7)) ||| (toByte (Int.tmod shard 2048 >>> (8 : Nat))).val),
       toByte (Int.tmod shard 2048), rnd 2, rnd 3, rnd 4, rnd 5, rnd 6, rnd 7]) := by
  simp [NewUUID, splice, putUint64, uuidLen, List.ofFn_succ, List.replicate]
  exact ⟨rfl, rfl, rfl, rfl, rfl⟩

theorem shard_bits (r8 : Byte) (s : Int) :
    (((0 ||| (((natToByte ((r8.val &&& (255 ^^^ 0x7)) |||
      (toByte (Int.tmod s 2048 >>> (8 : Nat))).val)).val
      &&& 0x7) <<< 8)) ||| (toByte (Int.tmod s 2048)).val : Nat) : Int) = s % 2048 := by
  have ht : (Int.tmod s 2048) % 2048 = s % 2048 := by
    rw [tmod_cases s 2048 (by norm_num)]
    split <;> omega
  generalize Int.tmod s 2048 = t at ht ⊢
  have hsh : t >>> (8 : Nat) = t / 256 := by
    rw [Int.shiftRight_eq_div_pow]; norm_num
  rw [hsh]
  have hand : r8.val &&& (255 ^^^ 0x7) < 2 ^ 8 :=
    lt_of_le_of_lt Nat.and_le_left (by have := r8.isLt; omega)
  have hb : (toByte (t / 256)).val < 2 ^ 8 := by
    have := (toByte (t / 256)).isLt; omega
  have hor := Nat.or_lt_two_pow hand hb
  rw [natToByte_val_of_lt _ (by omega), low3_of_or, Nat.zero_or, shl8_or _ _ (toByte t).isLt]
  have h1 := toByte_val (t / 256)
  have h2 := toByte_val t
  push_cast
  omega

/-! ## Big-endian and timestamp round trips -/

theorem or_shl (a b k : Nat) (h : a < 2 ^ k) : a ||| b <<< k = a + b * 2 ^ k := by
  rw [Nat.shiftLeft_eq, Nat.or_comm, Nat.mul_comm, ← Nat.mul_add_lt_is_or h, Nat.add_comm]

theorem uint64BE_putUint64 (v : Nat) (hv : v < 2 ^ 64) (rest : List Byte) :
    uint64BE (putUint64 v ++ rest) = some v := by
  simp only [putUint64, List.cons_append, List.nil_append, uint64BE, natToByte,
    Nat.shiftRight_eq_div_pow, Option.some.injEq]
  rw [or_shl _ _ 8 (by omega), or_shl _ _ 16 (by omega), or_shl _ _ 24 (by omega),
    or_shl _ _ 32 (by omega), or_shl _ _ 40 (by omega), or_shl _ _ 48 (by omega),
    or_shl _ _ 56 (by omega)]
  omega

theorem wrap64_of_range (x : Int) (h1 : -2 ^ 63 ≤ x) (h2 : x < 2 ^ 63) : wrap64 x = x := by
  unfold wrap64; omega

theorem wrap64_range (x : Int) : -2 ^ 63 ≤ wrap64 x ∧ wrap64 x < 2 ^ 63 := by
  unfold wrap64; omega

theorem toUint64_lt (x : Int) : toUint64 x < 2 ^ 64 := by
  unfold toUint64; omega

theorem toInt64_toUint64 (x : Int) (h1 : -2 ^ 63 ≤ x) (h2 : x < 2 ^ 63) :
    toInt64 (toUint64 x) = x := by
  unfold toInt64 toUint64 wrap64; omega

theorem unixMicrosecond_eq (tm : Time) (hns : 0 ≤ tm.nsec)
    (hlo : -2 ^ 63 ≤ tm.sec * 1000000 + tm.nsec / 1000)
    (hhi : tm.sec * 1000000 + tm.nsec / 1000 < 2 ^ 63) :
    unixMicrosecond tm = tm.sec * 1000000 + tm.nsec / 1000 := by
  unfold unixMicrosecond
  rw [Int.tdiv_eq_ediv hns (by norm_num)]
  unfold wrap64; omega

theorem fromUnixMicrosecond_eq (sec nsec : Int) (h0 : 0 ≤ nsec) (h1 : nsec < 1000000000)
    (hlo : -2 ^ 63 ≤ sec * 1000000 + nsec / 1000)
    (hhi : sec * 1000000 + nsec / 1000 < 2 ^ 63) :
    fromUnixMicrosecond (sec * 1000000 + nsec / 1000) = ⟨sec, nsec - nsec % 1000⟩ := by
  generalize hn : sec * 1000000 + nsec / 1000 = n at hlo hhi
  obtain ⟨secs, hsecs, hcase⟩ : ∃ secs, Int.tdiv n 1000000 = secs ∧
      ((0 ≤ sec ∧ secs = sec) ∨ (sec < 0 ∧ nsec / 1000 = 0 ∧ secs = sec) ∨
        (sec < 0 ∧ 0 < nsec / 1000 ∧ secs = sec + 1)) := by
    refine ⟨_, rfl, ?_⟩
    rw [tdiv_cases _ _ (show (0 : Int) < 1000000 by norm_num)]
    split <;> omega
  unfold fromUnixMicrosecond
  simp only [hsecs]
  have hrem : wrap64 (wrap64 (n - wrap64 (secs * 1000000)) * 1000) = (n - secs * 1000000) * 1000 := by
    rw [wrap64_of_range (secs * 1000000) (by omega) (by omega),
      wrap64_of_range (n - secs * 1000000) (by omega) (by omega),
      wrap64_of_range _ (by omega) (by omega)]
  rw [hrem]
  unfold timeUnix
  rcases hcase with ⟨h, rfl⟩ | ⟨h, hz, rfl⟩ | ⟨h, hp, rfl⟩
  · rw [if_neg (by omega)]
    simp only [Time.mk.injEq, true_and]
    omega
  · rw [if_neg (by omega)]
    simp only [Time.mk.injEq, true_and]
    omega
  · have hq : Int.tdiv ((n - (sec + 1) * 1000000) * 1000) 1000000000 = 0 := by
      rw [tdiv_cases _ _ (show (0 : Int) < 1000000000 by norm_num)]
      split <;> omega
    rw [if_pos (by omega)]
    simp only [hq]
    rw [show wrap64 ((0 : Int) * 1000000000) = 0 by decide, Int.sub_zero, Int.add_zero,
      wrap64_of_range ((n - (sec + 1) * 1000000) * 1000) (by omega) (by omega),
      if_pos (by omega), wrap64_of_range (sec + 1) (by omega) (by omega),
      wrap64_of_range (sec + 1 - 1) (by omega) (by omega),
      wrap64_of_range _ (by omega) (by omega)]
    simp only [Time.mk.injEq]
    omega

/-! ## The text form, byte by byte -/

set_option maxRecDepth 100000 in
theorem hextable_hi : ∀ v : Byte, hextable[v.val >>> 4]?.getD 0 = hexDigit (v.val / 16) := by
  decide

set_option maxRecDepth 100000 in
theorem hextable_lo : ∀ v : Byte, hextable[v.val &&& 0x0f]?.getD 0 = hexDigit (v.val % 16) := by
  decide

theorem String_bytes (appendNull : Slice → Int → Slice)
    (b0 b1 b2 b3 b4 b5 b6 b7 b8 b9 b10 b11 b12 b13 b14 b15 : Byte) :
    String appendNull (some [b0, b1, b2, b3, b4, b5, b6, b7, b8, b9, b10, b11, b12, b13, b14, b15])
      = hexText [b0, b1, b2, b3] ++ [45] ++ hexText [b4, b5] ++ [45] ++ hexText [b6, b7] ++ [45]
        ++ hexText [b8, b9] ++ [45] ++ hexText [b10, b11, b12, b13, b14, b15] := by
  simp [String, AppendValue, uuidLen, uuidHexLen, appendQuote, goAppend, len, Slice.data, slice,
    splice, hexEncode, encodeInto, hexEncodeLoop, hextable_hi, hextable_lo, hexText, twoDigitHex,
    List.replicate]

theorem list16 (l : List Byte) (h : l.length = 16) :
    ∃ b0 b1 b2 b3 b4 b5 b6 b7 b8 b9 b10 b11 b12 b13 b14 b15 : Byte,
      l = [b0, b1, b2, b3, b4, b5, b6, b7, b8, b9, b10, b11, b12, b13, b14, b15] := by
  obtain ⟨b0, l, rfl⟩ := List.exists_cons_of_length_eq_add_one h
  replace h : l.length = 15 := by simpa using h
  obtain ⟨b1, l, rfl⟩ := List.exists_cons_of_length_eq_add_one h
  replace h : l.length = 14 := by simpa using h
  obtain ⟨b2, l, rfl⟩ := List.exists_cons_of_length_eq_add_one h
  replace h : l.length = 13 := by simpa using h
  obtain ⟨b3, l, rfl⟩ := List.exists_cons_of_length_eq_add_one h
  replace h : l.length = 12 := by simpa using h
  obtain ⟨b4, l, rfl⟩ := List.exists_cons_of_length_eq_add_one h
  replace h : l.length = 11 := by simpa using h
  obtain ⟨b5, l, rfl⟩ := List.exists_cons_of_length_eq_add_one h
  replace h : l.length = 10 := by simpa using h
  obtain ⟨b6, l, rfl⟩ := List.exists_cons_of_length_eq_add_one h
  replace h : l.length = 9 := by simpa using h
  obtain ⟨b7, l, rfl⟩ := List.exists_cons_of_length_eq_add_one h
  replace h : l.length = 8 := by simpa using h
  obtain ⟨b8, l, rfl⟩ := List.exists_cons_of_length_eq_add_one h
  replace h : l.length = 7 := by simpa using h
  obtain ⟨b9, l, rfl⟩ := List.exists_cons_of_length_eq_add_one h
  replace h : l.length = 6 := by simpa using h
  obtain ⟨b10, l, rfl⟩ := List.exists_cons_of_length_eq_add_one h
  replace h : l.length = 5 := by simpa using h
  obtain ⟨b11, l, rfl⟩ := List.exists_cons_of_length_eq_add_one h
  replace h : l.length = 4 := by simpa using h
  obtain ⟨b12, l, rfl⟩ := List.exists_cons_of_length_eq_add_one h
  replace h : l.length = 3 := by simpa using h
  obtain ⟨b13, l, rfl⟩ := List.exists_cons_of_length_eq_add_one h
  replace h : l.length = 2 := by simpa using h
  obtain ⟨b14, l, rfl⟩ := List.exists_cons_of_length_eq_add_one h
  replace h : l.length = 1 := by simpa using h
  obtain ⟨b15, l, rfl⟩ := List.exists_cons_of_length_eq_add_one h
  replace h : l.length = 0 := by simpa using h
  obtain rfl := List.length_eq_zero.mp h
  exact ⟨b0, b1, b2, b3, b4, b5, b6, b7, b8, b9, b10, b11, b12, b13, b14, b15, rfl⟩

set_option maxRecDepth 100000 in
theorem fromHexChar_hexDigit_hi :
    ∀ v : Byte, fromHexChar (hexDigit (v.val / 16)) = some (natToByte (v.val / 16)) := by
  decide

set_option maxRecDepth 100000 in
theorem fromHexChar_hexDigit_lo :
    ∀ v : Byte, fromHexChar (hexDigit (v.val % 16)) = some (natToByte (v.val % 16)) := by
  decide

set_option maxRecDepth 100000 in
theorem nibbles_join :
    ∀ v : Byte, natToByte (((natToByte (v.val / 16)).val <<< 4) |||
      (natToByte (v.val % 16)).val) = v := by
  decide

theorem hexDecodeLoop_nil (dst : List Byte) (i : Nat) : hexDecodeLoop dst i [] = (dst, none) := rfl

theorem hexDecodeLoop_twoDigitHex (dst : List Byte) (i : Nat) (v : Byte) (rest : List Byte) :
    hexDecodeLoop dst i (hexDigit (v.val / 16) :: hexDigit (v.val % 16) :: rest)
      = hexDecodeLoop (dst.set i v) (i + 1) rest := by
  simp only [hexDecodeLoop, fromHexChar_hexDigit_hi, fromHexChar_hexDigit_lo, nibbles_join]

theorem ParseUUID_String_bytes (appendNull : Slice → Int → Slice)
    (b0 b1 b2 b3 b4 b5 b6 b7 b8 b9 b10 b11 b12 b13 b14 b15 : Byte) :
    ParseUUID (some (String appendNull (some [b0, b1, b2, b3, b4, b5, b6, b7, b8, b9, b10, b11, b12, b13, b14, b15])))
      = (some [b0, b1, b2, b3, b4, b5, b6, b7, b8, b9, b10, b11, b12, b13, b14, b15], none) := by
  rw [String_bytes]
  simp [ParseUUID, uuidLen, uuidHexLen, len, Slice.data, slice, decodeInto,
    splice, hexDecode, hexDecodeLoop_twoDigitHex, hexDecodeLoop_nil, hexText, twoDigitHex,
    List.replicate]

theorem len_eq_sixteen (u : UUID) (h : len u = 16) : ∃ ub : List Byte, u = some ub ∧ ub.length = 16 := by
  cases u with
  | none => simp [len, Slice.data] at h
  | some ub => exact ⟨ub, rfl, by simpa [len, Slice.data] using h⟩

theorem Split_NewUUID (rnd : Fin 8 → Byte) (shard : Int) (tm : Time) :
    Split (NewUUID rnd shard tm)
      = some (shard % 2048, fromUnixMicrosecond (toInt64 (toUint64 (unixMicrosecond tm)))) := by
  rw [NewUUID_bytes]
  have hv := uint64BE_putUint64 _ (toUint64_lt (unixMicrosecond tm))
    [natToByte (((rnd 0).val &&& (255 ^^^ 0x7)) ||| (toByte (Int.tmod shard 2048 >>> (8 : Nat))).val),
       toByte (Int.tmod shard 2048), rnd 2, rnd 3, rnd 4, rnd 5, rnd 6, rnd 7]
  simp only [Split, Slice.data, Option.getD_some, hv]
  simp only [putUint64, List.cons_append, List.nil_append, List.get?, Option.some.injEq,
    Prod.mk.injEq, and_true]
  exact shard_bits (rnd 0) shard


theorem ParseUUID_String_list (appendNull : Slice → Int → Slice) (ub : List Byte)
    (h : ub.length = 16) :
    ParseUUID (some (String appendNull (some ub))) = (some ub, none) := by
  obtain ⟨b0, b1, b2, b3, b4, b5, b6, b7, b8, b9, b10, b11, b12, b13, b14, b15, rfl⟩ :=
    list16 ub h
  exact ParseUUID_String_bytes appendNull _ _ _ _ _ _ _ _ _ _ _ _ _ _ _ _

theorem list36 (l : List Byte) (h : l.length = 36) :
    ∃ c0 c1 c2 c3 c4 c5 c6 c7 c8 c9 c10 c11 c12 c13 c14 c15 c16 c17 c18 c19 c20 c21 c22 c23 c24 c25 c26 c27 c28 c29 c30 c31 c32 c33 c34 c35 : Byte,
      l = [c0, c1, c2, c3, c4, c5, c6, c7, c8, c9, c10, c11, c12, c13, c14, c15, c16, c17, c18, c19, c20, c21, c22, c23, c24, c25, c26, c27, c28, c29, c30, c31, c32, c33, c34, c35] := by
  obtain ⟨c0, l, rfl⟩ := List.exists_cons_of_length_eq_add_one h
  replace h : l.length = 35 := by simpa using h
  obtain ⟨c1, l, rfl⟩ := List.exists_cons_of_length_eq_add_one h
  replace h : l.length = 34 := by simpa using h
  obtain ⟨c2, l, rfl⟩ := List.exists_cons_of_length_eq_add_one h
  replace h : l.length = 33 := by simpa using h
  obtain ⟨c3, l, rfl⟩ := List.exists_cons_of_length_eq_add_one h
  replace h : l.length = 32 := by simpa using h
  obtain ⟨c4, l, rfl⟩ := List.exists_cons_of_length_eq_add_one h
  replace h : l.length = 31 := by simpa using h
  obtain ⟨c5, l, rfl⟩ := List.exists_cons_of_length_eq_add_one h
  replace h : l.length = 30 := by simpa using h
  obtain ⟨c6, l, rfl⟩ := List.exists_cons_of_length_eq_add_one h
  replace h : l.length = 29 := by simpa using h
  obtain ⟨c7, l, rfl⟩ := List.exists_cons_of_length_eq_add_one h
  replace h : l.length = 28 := by simpa using h
  obtain ⟨c8, l, rfl⟩ := List.exists_cons_of_length_eq_add_one h
  replace h : l.length = 27 := by simpa using h
  obtain ⟨c9, l, rfl⟩ := List.exists_cons_of_length_eq_add_one h
  replace h : l.length = 26 := by simpa using h
  obtain ⟨c10, l, rfl⟩ := List.exists_cons_of_length_eq_add_one h
  replace h : l.length = 25 := by simpa using h
  obtain ⟨c11, l, rfl⟩ := List.exists_cons_of_length_eq_add_one h
  replace h : l.length = 24 := by simpa using h
  obtain ⟨c12, l, rfl⟩ := List.exists_cons_of_length_eq_add_one h
  replace h : l.length = 23 := by simpa using h
  obtain ⟨c13, l, rfl⟩ := List.exists_cons_of_length_eq_add_one h
  replace h : l.length = 22 := by simpa using h
  obtain ⟨c14, l, rfl⟩ := List.exists_cons_of_length_eq_add_one h
  replace h : l.length = 21 := by simpa using h
  obtain ⟨c15, l, rfl⟩ := List.exists_cons_of_length_eq_add_one h
  replace h : l.length = 20 := by simpa using h
  obtain ⟨c16, l, rfl⟩ := List.exists_cons_of_length_eq_add_one h
  replace h : l.length = 19 := by simpa using h
  obtain ⟨c17, l, rfl⟩ := List.exists_cons_of_length_eq_add_one h
  replace h : l.length = 18 := by simpa using h
  obtain ⟨c18, l, rfl⟩ := List.exists_cons_of_length_eq_add_one h
  replace h : l.length = 17 := by simpa using h
  obtain ⟨c19, l, rfl⟩ := List.exists_cons_of_length_eq_add_one h
  replace h : l.length = 16 := by simpa using h
  obtain ⟨c20, l, rfl⟩ := List.exists_cons_of_length_eq_add_one h
  replace h : l.length = 15 := by simpa using h
  obtain ⟨c21, l, rfl⟩ := List.exists_cons_of_length_eq_add_one h
  replace h : l.length = 14 := by simpa using h
  obtain ⟨c22, l, rfl⟩ := List.exists_cons_of_length_eq_add_one h
  replace h : l.length = 13 := by simpa using h
  obtain ⟨c23, l, rfl⟩ := List.exists_cons_of_length_eq_add_one h
  replace h : l.length = 12 := by simpa using h
  obtain ⟨c24, l, rfl⟩ := List.exists_cons_of_length_eq_add_one h
  replace h : l.length = 11 := by simpa using h
  obtain ⟨c25, l, rfl⟩ := List.exists_cons_of_length_eq_add_one h
  replace h : l.length = 10 := by simpa using h
  obtain ⟨c26, l, rfl⟩ := List.exists_cons_of_length_eq_add_one h
  replace h : l.length = 9 := by simpa using h
  obtain ⟨c27, l, rfl⟩ := List.exists_cons_of_length_eq_add_one h
  replace h : l.length = 8 := by simpa using h
  obtain ⟨c28, l, rfl⟩ := List.exists_cons_of_length_eq_add_one h
  replace h : l.length = 7 := by simpa using h
  obtain ⟨c29, l, rfl⟩ := List.exists_cons_of_length_eq_add_one h
  replace h : l.length = 6 := by simpa using h
  obtain ⟨c30, l, rfl⟩ := List.exists_cons_of_length_eq_add_one h
  replace h : l.length = 5 := by simpa using h
  obtain ⟨c31, l, rfl⟩ := List.exists_cons_of_length_eq_add_one h
  replace h : l.length = 4 := by simpa using h
  obtain ⟨c32, l, rfl⟩ := List.exists_cons_of_length_eq_add_one h
  replace h : l.length = 3 := by simpa using h
  obtain ⟨c33, l, rfl⟩ := List.exists_cons_of_length_eq_add_one h
  replace h : l.length = 2 := by simpa using h
  obtain ⟨c34, l, rfl⟩ := List.exists_cons_of_length_eq_add_one h
  replace h : l.length = 1 := by simpa using h
  obtain ⟨c35, l, rfl⟩ := List.exists_cons_of_length_eq_add_one h
  replace h : l.length = 0 := by simpa using h
  obtain rfl := List.length_eq_zero.mp h
  exact ⟨c0, c1, c2, c3, c4, c5, c6, c7, c8, c9, c10, c11, c12, c13, c14, c15, c16, c17, c18, c19, c20, c21, c22, c23, c24, c25, c26, c27, c28, c29, c30, c31, c32, c33, c34, c35, rfl⟩

set_option maxRecDepth 100000 in
theorem lowerHex_is_hexDigit :
    ∀ c : Byte, isLowerHexDigit c → ∃ n : Fin 16, hexDigit n.val = c := by
  decide

theorem lowerHex_pair (c d : Byte) (hc : isLowerHexDigit c) (hd : isLowerHexDigit d) :
    ∃ v : Byte, twoDigitHex v = [c, d] := by
  obtain ⟨n, rfl⟩ := lowerHex_is_hexDigit c hc
  obtain ⟨m, rfl⟩ := lowerHex_is_hexDigit d hd
  refine ⟨⟨16 * n.val + m.val, by omega⟩, ?_⟩
  simp only [twoDigitHex]
  rw [show (16 * n.val + m.val) / 16 = n.val by omega,
    show (16 * n.val + m.val) % 16 = m.val by omega]

theorem canonical_is_String (appendNull : Slice → Int → Slice) (t : List Byte)
    (h : isCanonicalText t) :
    ∃ ub : List Byte, ub.length = 16 ∧ String appendNull (some ub) = t := by
  obtain ⟨hl, hi⟩ := h
  obtain ⟨c0, c1, c2, c3, c4, c5, c6, c7, c8, c9, c10, c11, c12, c13, c14, c15, c16, c17, c18, c19, c20, c21, c22, c23, c24, c25, c26, c27, c28, c29, c30, c31, c32, c33, c34, c35, rfl⟩ := list36 t hl
  have h0 := hi 0 (by norm_num)
  have h1 := hi 1 (by norm_num)
  have h2 := hi 2 (by norm_num)
  have h3 := hi 3 (by norm_num)
  have h4 := hi 4 (by norm_num)
  have h5 := hi 5 (by norm_num)
  have h6 := hi 6 (by norm_num)
  have h7 := hi 7 (by norm_num)
  have h8 := hi 8 (by norm_num)
  have h9 := hi 9 (by norm_num)
  have h10 := hi 10 (by norm_num)
  have h11 := hi 11 (by norm_num)
  have h12 := hi 12 (by norm_num)
  have h13 := hi 13 (by norm_num)
  have h14 := hi 14 (by norm_num)
  have h15 := hi 15 (by norm_num)
  have h16 := hi 16 (by norm_num)
  have h17 := hi 17 (by norm_num)
  have h18 := hi 18 (by norm_num)
  have h19 := hi 19 (by norm_num)
  have h20 := hi 20 (by norm_num)
  have h21 := hi 21 (by norm_num)
  have h22 := hi 22 (by norm_num)
  have h23 := hi 23 (by norm_num)
  have h24 := hi 24 (by norm_num)
  have h25 := hi 25 (by norm_num)
  have h26 := hi 26 (by norm_num)
  have h27 := hi 27 (by norm_num)
  have h28 := hi 28 (by norm_num)
  have h29 := hi 29 (by norm_num)
  have h30 := hi 30 (by norm_num)
  have h31 := hi 31 (by norm_num)
  have h32 := hi 32 (by norm_num)
  have h33 := hi 33 (by norm_num)
  have h34 := hi 34 (by norm_num)
  have h35 := hi 35 (by norm_num)
  simp only [List.getD_cons_zero, List.getD_cons_succ, Nat.reduceEqDiff, or_self, or_false,
    or_true, true_or, false_or, if_true, if_false, reduceIte, OfNat.ofNat_ne_zero,
    Nat.succ_ne_zero] at h0 h1 h2 h3 h4 h5 h6 h7 h8 h9 h10 h11 h12 h13 h14 h15 h16 h17 h18 h19 h20 h21 h22 h23 h24 h25 h26 h27 h28 h29 h30 h31 h32 h33 h34 h35
  obtain ⟨v0, e0⟩ := lowerHex_pair c0 c1 h0 h1
  obtain ⟨v1, e1⟩ := lowerHex_pair c2 c3 h2 h3
  obtain ⟨v2, e2⟩ := lowerHex_pair c4 c5 h4 h5
  obtain ⟨v3, e3⟩ := lowerHex_pair c6 c7 h6 h7
  obtain ⟨v4, e4⟩ := lowerHex_pair c9 c10 h9 h10
  obtain ⟨v5, e5⟩ := lowerHex_pair c11 c12 h11 h12
  obtain ⟨v6, e6⟩ := lowerHex_pair c14 c15 h14 h15
  obtain ⟨v7, e7⟩ := lowerHex_pair c16 c17 h16 h17
  obtain ⟨v8, e8⟩ := lowerHex_pair c19 c20 h19 h20
  obtain ⟨v9, e9⟩ := lowerHex_pair c21 c22 h21 h22
  obtain ⟨v10, e10⟩ := lowerHex_pair c24 c25 h24 h25
  obtain ⟨v11, e11⟩ := lowerHex_pair c26 c27 h26 h27
  obtain ⟨v12, e12⟩ := lowerHex_pair c28 c29 h28 h29
  obtain ⟨v13, e13⟩ := lowerHex_pair c30 c31 h30 h31
  obtain ⟨v14, e14⟩ := lowerHex_pair c32 c33 h32 h33
  obtain ⟨v15, e15⟩ := lowerHex_pair c34 c35 h34 h35
  refine ⟨[v0, v1, v2, v3, v4, v5, v6, v7, v8, v9, v10, v11, v12, v13, v14, v15], rfl, ?_⟩
  rw [String_bytes]
  simp only [hexText, List.map, List.flatten, e0, e1, e2, e3, e4, e5, e6, e7, e8, e9, e10, e11, e12, e13, e14, e15, h8, h13, h18, h23,
    List.cons_append, List.nil_append, List.append_nil]

set_option maxRecDepth 100000 in
theorem hexDigit_lower :
    ∀ v : Byte, isLowerHexDigit (hexDigit (v.val / 16)) ∧ isLowerHexDigit (hexDigit (v.val % 16)) := by
  decide

theorem String_isCanonicalText (appendNull : Slice → Int → Slice) (ub : List Byte)
    (h : ub.length = 16) : isCanonicalText (String appendNull (some ub)) := by
  obtain ⟨b0, b1, b2, b3, b4, b5, b6, b7, b8, b9, b10, b11, b12, b13, b14, b15, rfl⟩ :=
    list16 ub h
  rw [String_bytes]
  simp only [hexText, twoDigitHex, List.map, List.flatten, List.cons_append, List.nil_append,
    List.append_nil]
  refine ⟨rfl, ?_⟩
  intro i hi
  interval_cases i <;>
    simp [(hexDigit_lower _).1, (hexDigit_lower _).2]

theorem String_groups (appendNull : Slice → Int → Slice) (ub : List Byte)
    (h : ub.length = 16) :
    String appendNull (some ub) = hexText (slice ub 0 4) ++ [45] ++ hexText (slice ub 4 6) ++ [45]
      ++ hexText (slice ub 6 8) ++ [45] ++ hexText (slice ub 8 10) ++ [45]
      ++ hexText (slice ub 10 16) := by
  obtain ⟨b0, b1, b2, b3, b4, b5, b6, b7, b8, b9, b10, b11, b12, b13, b14, b15, rfl⟩ :=
    list16 ub h
  rw [String_bytes]
  simp [slice]

set_option maxRecDepth 1000000 in
theorem keep_top5 :
    ∀ r : Byte, ∀ k : Fin 8, (r.val &&& (255 ^^^ 0x7)) ||| k.val = r.val / 8 * 8 + k.val := by
  decide

/-- What `NewUUID` returns when the shard is not negative: bytes 0-7 are the big-endian
microsecond count, byte 8 keeps the top five bits of the random byte and has bits 8-10 of
`shard mod 2048` as its low three, byte 9 is the low 8 bits of `shard mod 2048`, bytes
10-15 are random. -/
theorem NewUUID_layout_of_nonneg (rnd : Fin 8 → Byte) (shard : Int) (tm : Time)
    (h : 0 ≤ shard) :
    NewUUID rnd shard tm = some (putUint64 (toUint64 (unixMicrosecond tm)) ++
        [natToByte ((rnd 0).val / 8 * 8 + (shard % 2048 / 256).toNat), toByte (shard % 2048),
          rnd 2, rnd 3, rnd 4, rnd 5, rnd 6, rnd 7]) := by
  rw [NewUUID_bytes, Int.tmod_eq_emod h (by norm_num)]
  have hsh : (shard % 2048) >>> (8 : Nat) = shard % 2048 / 256 := by
    rw [Int.shiftRight_eq_div_pow]; norm_num
  have hk : (toByte (shard % 2048 / 256)).val = (shard % 2048 / 256).toNat := by
    have := toByte_val (shard % 2048 / 256)
    omega
  have hlt : (shard % 2048 / 256).toNat < 8 := by omega
  rw [hsh, hk, keep_top5 (rnd 0) ⟨_, hlt⟩]

/-- On a 36-byte input `ParseUUID` never returns an error, whatever the bytes are. -/
theorem ParseUUID_nil_error_of_len (b : Slice) (h : len b = 36) :
    (ParseUUID b).2 = none ∧ (ParseUUID b).1 ≠ none := by
  simp [ParseUUID, uuidHexLen, h]

/-! ## Quoting, wrong lengths, `Value` and `Scan` -/

theorem goAppend_cons (s : Slice) (x : Byte) (xs : List Byte) :
    goAppend s (x :: xs) = some (s.data ++ x :: xs) := by
  cases s <;> rfl

theorem appendQuote_data (b : Slice) (quote : Int) :
    (appendQuote b quote).data = b.data ++ quoteBytes quote := by
  unfold appendQuote quoteBytes
  by_cases h2 : quote = 2
  · subst h2; simp [goAppend_cons, Slice.data]
  · by_cases h1 : quote = 1
    · subst h1; simp [goAppend_cons, Slice.data]
    · simp [h1, h2]

theorem appendQuote_some (l : List Byte) (quote : Int) :
    appendQuote (some l) quote = some (l ++ quoteBytes quote) := by
  unfold appendQuote quoteBytes
  by_cases h2 : quote = 2
  · subst h2; simp [goAppend_cons, Slice.data]
  · by_cases h1 : quote = 1
    · subst h1; simp [goAppend_cons, Slice.data]
    · simp [h1, h2]

theorem AppendValue_bytes (appendNull : Slice → Int → Slice)
    (b0 b1 b2 b3 b4 b5 b6 b7 b8 b9 b10 b11 b12 b13 b14 b15 : Byte) (b : Slice) (quote : Int) :
    AppendValue appendNull (some [b0, b1, b2, b3, b4, b5, b6, b7, b8, b9, b10, b11, b12, b13, b14, b15]) b quote
      = (some (b.data ++ quoteBytes quote
          ++ String appendNull (some [b0, b1, b2, b3, b4, b5, b6, b7, b8, b9, b10, b11, b12, b13, b14, b15])
          ++ quoteBytes quote), none) := by
  rw [String_bytes]
  simp only [AppendValue, uuidLen, uuidHexLen, List.length_cons, List.length_nil, Nat.reduceAdd,
    ne_eq, not_true_eq_false, if_false, List.replicate, goAppend_cons]
  rw [appendQuote_data]
  generalize b.data ++ quoteBytes quote = p
  simp [len, Slice.data, slice, splice, encodeInto, hexEncode, hexEncodeLoop, hextable_hi,
    hextable_lo, hexText, twoDigitHex, appendQuote_some, List.take_append, List.drop_append,
    List.take_left, List.drop_left]

theorem AppendValue_list (appendNull : Slice → Int → Slice) (ub : List Byte)
    (h : ub.length = 16) (b : Slice) (quote : Int) :
    AppendValue appendNull (some ub) b quote
      = (some (b.data ++ quoteBytes quote ++ String appendNull (some ub) ++ quoteBytes quote),
          none) := by
  obtain ⟨b0, b1, b2, b3, b4, b5, b6, b7, b8, b9, b10, b11, b12, b13, b14, b15, rfl⟩ :=
    list16 ub h
  exact AppendValue_bytes appendNull _ _ _ _ _ _ _ _ _ _ _ _ _ _ _ _ b quote

theorem AppendValue_wrong_length (appendNull : Slice → Int → Slice) (ub : List Byte)
    (h : ub.length ≠ 16) (b : Slice) (quote : Int) :
    AppendValue appendNull (some ub) b quote = (none, some (GoError.invalidUUIDHex b)) := by
  simp only [AppendValue, uuidLen, h, ne_eq, not_false_eq_true, if_true]

/-- For a non-nil UUID of a wrong length `Value` returns the empty string and a nil error. -/
theorem Value_of_wrong_length (appendNull : Slice → Int → Slice) (ub : List Byte)
    (h : ub.length ≠ 16) : Value appendNull (some ub) = ([], none) := by
  simp only [Value, String, AppendValue_wrong_length appendNull ub h, Slice.data, Option.getD_none]

/-- What `Scan` does with a `[]byte`: for 36 bytes it stores what `ParseUUID` returns and
returns nil, for another length it returns `ParseUUID`'s error and leaves `*u` as it was. -/
theorem Scan_bytes (u : UUID) (bs : Slice) :
    Scan u (Iface.bytes bs) =
      if len bs = 36 then ScanResult.returned (ParseUUID bs).1 none
      else ScanResult.returned u (some (GoError.invalidUUIDText bs)) := by
  by_cases h : len bs = 36
  · simp [Scan, h, (ParseUUID_nil_error_of_len bs h).1]
  · simp [Scan, h, ParseUUID, uuidHexLen]

/-! ## Upper-case digits -/

set_option maxRecDepth 100000 in
theorem fromHexChar_upper :
    ∀ c : Byte, 97 ≤ c.val ∧ c.val ≤ 102 → fromHexChar (c - 32) = fromHexChar c := by
  decide

theorem fromHexChar_variant (c d : Byte)
    (h : d = c ∨ (97 ≤ c.val ∧ c.val ≤ 102 ∧ d.val + 32 = c.val)) :
    fromHexChar d = fromHexChar c := by
  rcases h with rfl | ⟨h1, h2, h3⟩
  · rfl
  · have hd : d = c - 32 := by
      apply Fin.ext
      rw [Fin.sub_def]
      have := c.isLt
      show d.val = (256 - 32 + c.val) % 256
      omega
    rw [hd]
    exact fromHexChar_upper c ⟨h1, h2⟩

theorem hexDecodeLoop_variant (v c d : Byte)
    (hc : c = hexDigit (v.val / 16) ∨ (97 ≤ (hexDigit (v.val / 16)).val ∧
      (hexDigit (v.val / 16)).val ≤ 102 ∧ c.val + 32 = (hexDigit (v.val / 16)).val))
    (hd : d = hexDigit (v.val % 16) ∨ (97 ≤ (hexDigit (v.val % 16)).val ∧
      (hexDigit (v.val % 16)).val ≤ 102 ∧ d.val + 32 = (hexDigit (v.val % 16)).val))
    (dst : List Byte) (i : Nat) (rest : List Byte) :
    hexDecodeLoop dst i (c :: d :: rest) = hexDecodeLoop (dst.set i v) (i + 1) rest := by
  simp only [hexDecodeLoop, fromHexChar_variant _ _ hc, fromHexChar_variant _ _ hd,
    fromHexChar_hexDigit_hi, fromHexChar_hexDigit_lo, nibbles_join]

theorem ParseUUID_caseVariant_bytes (appendNull : Slice → Int → Slice)
    (b0 b1 b2 b3 b4 b5 b6 b7 b8 b9 b10 b11 b12 b13 b14 b15 : Byte) (t : List Byte)
    (h : isCaseVariantOf (String appendNull (some [b0, b1, b2, b3, b4, b5, b6, b7, b8, b9, b10, b11, b12, b13, b14, b15])) t) :
    ParseUUID (some t) = (some [b0, b1, b2, b3, b4, b5, b6, b7, b8, b9, b10, b11, b12, b13, b14, b15], none) := by
  rw [String_bytes] at h
  simp only [hexText, twoDigitHex, List.map, List.flatten, List.cons_append, List.nil_append,
    List.append_nil] at h
  obtain ⟨hl, hi⟩ := h
  simp only [List.length_cons, List.length_nil, Nat.reduceAdd] at hl hi
  obtain ⟨c0, c1, c2, c3, c4, c5, c6, c7, c8, c9, c10, c11, c12, c13, c14, c15, c16, c17, c18, c19, c20, c21, c22, c23, c24, c25, c26, c27, c28, c29, c30, c31, c32, c33, c34, c35, rfl⟩ := list36 t hl
  have h0 := hi 0 (by norm_num)
  have h1 := hi 1 (by norm_num)
  have h2 := hi 2 (by norm_num)
  have h3 := hi 3 (by norm_num)
  have h4 := hi 4 (by norm_num)
  have h5 := hi 5 (by norm_num)
  have h6 := hi 6 (by norm_num)
  have h7 := hi 7 (by norm_num)
  have h9 := hi 9 (by norm_num)
  have h10 := hi 10 (by norm_num)
  have h11 := hi 11 (by norm_num)
  have h12 := hi 12 (by norm_num)
  have h14 := hi 14 (by norm_num)
  have h15 := hi 15 (by norm_num)
  have h16 := hi 16 (by norm_num)
  have h17 := hi 17 (by norm_num)
  have h19 := hi 19 (by norm_num)
  have h20 := hi 20 (by norm_num)
  have h21 := hi 21 (by norm_num)
  have h22 := hi 22 (by norm_num)
  have h24 := hi 24 (by norm_num)
  have h25 := hi 25 (by norm_num)
  have h26 := hi 26 (by norm_num)
  have h27 := hi 27 (by norm_num)
  have h28 := hi 28 (by norm_num)
  have h29 := hi 29 (by norm_num)
  have h30 := hi 30 (by norm_num)
  have h31 := hi 31 (by norm_num)
  have h32 := hi 32 (by norm_num)
  have h33 := hi 33 (by norm_num)
  have h34 := hi 34 (by norm_num)
  have h35 := hi 35 (by norm_num)
  simp only [List.getD_cons_zero, List.getD_cons_succ] at h0 h1 h2 h3 h4 h5 h6 h7 h9 h10 h11 h12 h14 h15 h16 h17 h19 h20 h21 h22 h24 h25 h26 h27 h28 h29 h30 h31 h32 h33 h34 h35
  simp [ParseUUID, uuidLen, uuidHexLen, len, Slice.data, slice, decodeInto,
    splice, hexDecode, hexDecodeLoop_nil, List.replicate,
    hexDecodeLoop_variant b0 c0 c1 h0 h1, hexDecodeLoop_variant b1 c2 c3 h2 h3, hexDecodeLoop_variant b2 c4 c5 h4 h5, hexDecodeLoop_variant b3 c6 c7 h6 h7, hexDecodeLoop_variant b4 c9 c10 h9 h10, hexDecodeLoop_variant b5 c11 c12 h11 h12, hexDecodeLoop_variant b6 c14 c15 h14 h15, hexDecodeLoop_variant b7 c16 c17 h16 h17, hexDecodeLoop_variant b8 c19 c20 h19 h20, hexDecodeLoop_variant b9 c21 c22 h21 h22, hexDecodeLoop_variant b10 c24 c25 h24 h25, hexDecodeLoop_variant b11 c26 c27 h26 h27, hexDecodeLoop_variant b12 c28 c29 h28 h29, hexDecodeLoop_variant b13 c30 c31 h30 h31, hexDecodeLoop_variant b14 c32 c33 h32 h33, hexDecodeLoop_variant b15 c34 c35 h34 h35]

/-! ## Byte order of the big-endian timestamp -/

theorem bytesLess_cons (x y : Byte) (xs ys : List Byte) :
    bytesLess (x :: xs) (y :: ys) = true ↔ x.val < y.val ∨ (x.val = y.val ∧ bytesLess xs ys = true) := by
  simp [bytesLess, Fin.ext_iff]

theorem bytesLess_putUint64 (a b : Nat) (hab : a < b) (hb : b < 2 ^ 64) (r1 r2 : List Byte) :
    bytesLess (putUint64 a ++ r1) (putUint64 b ++ r2) = true := by
  simp only [putUint64, List.cons_append, List.nil_append, bytesLess_cons, natToByte,
    Nat.shiftRight_eq_div_pow]
  rcases Nat.lt_trichotomy (a / 2 ^ 56 % 256) (b / 2 ^ 56 % 256) with h0 | h0 | h0
  · exact Or.inl h0
  · refine Or.inr ⟨h0, ?_⟩
    rcases Nat.lt_trichotomy (a / 2 ^ 48 % 256) (b / 2 ^ 48 % 256) with h1 | h1 | h1
    · exact Or.inl h1
    · refine Or.inr ⟨h1, ?_⟩
      rcases Nat.lt_trichotomy (a / 2 ^ 40 % 256) (b / 2 ^ 40 % 256) with h2 | h2 | h2
      · exact Or.inl h2
      · refine Or.inr ⟨h2, ?_⟩
        rcases Nat.lt_trichotomy (a / 2 ^ 32 % 256) (b / 2 ^ 32 % 256) with h3 | h3 | h3
        · exact Or.inl h3
        · refine Or.inr ⟨h3, ?_⟩
          rcases Nat.lt_trichotomy (a / 2 ^ 24 % 256) (b / 2 ^ 24 % 256) with h4 | h4 | h4
          · exact Or.inl h4
          · refine Or.inr ⟨h4, ?_⟩
            rcases Nat.lt_trichotomy (a / 2 ^ 16 % 256) (b / 2 ^ 16 % 256) with h5 | h5 | h5
            · exact Or.inl h5
            · refine Or.inr ⟨h5, ?_⟩
              rcases Nat.lt_trichotomy (a / 2 ^ 8 % 256) (b / 2 ^ 8 % 256) with h6 | h6 | h6
              · exact Or.inl h6
              · refine Or.inr ⟨h6, ?_⟩
                rcases Nat.lt_trichotomy (a % 256) (b % 256) with h7 | h7 | h7
                · exact Or.inl h7
                · exfalso; omega
                · exfalso; omega
              · exfalso; omega
            · exfalso; omega
          · exfalso; omega
        · exfalso; omega
      · exfalso; omega
    · exfalso; omega
  · exfalso; omega

theorem NewUUID_bytesLess (rnd1 rnd2 : Fin 8 → Byte) (s1 s2 : Int) (t1 t2 : Time)
    (h0 : 0 ≤ unixMicrosecond t1) (hlt : unixMicrosecond t1 < unixMicrosecond t2) :
    bytesLess (NewUUID rnd1 s1 t1).data (NewUUID rnd2 s2 t2).data = true := by
  rw [NewUUID_bytes, NewUUID_bytes]
  simp only [Slice.data, Option.getD_some]
  apply bytesLess_putUint64 _ _ _ (toUint64_lt _)
  have r1 := wrap64_range (unixMicrosecond t1)
  have r2 : unixMicrosecond t2 < 2 ^ 63 := by unfold unixMicrosecond; exact (wrap64_range _).2
  unfold toUint64
  omega

/-! ## The integer identifier -/

theorem toUint64_toInt64 (n : Nat) (h : n < 2 ^ 64) : toUint64 (toInt64 n) = n := by
  unfold toUint64 toInt64 wrap64; omega

/-- The value of `_next_id` when the millisecond offset has at most 41 bits and shard and
sequence are not negative: the three fields side by side, as a 64-bit signed integer. -/
theorem next_id_value (ms shard seq : Int) (hd0 : 0 ≤ ms - our_epoch)
    (hd1 : ms - our_epoch < 2 ^ 41) (hs : 0 ≤ shard) (hq : 0 ≤ seq) :
    _next_id ms shard seq
      = wrap64 ((ms - our_epoch) * 2 ^ 23 + shard % 2048 * 2 ^ 12 + seq % 4096) := by
  unfold _next_id max_shard_id max_seq_id
  rw [Int.tmod_eq_emod hs (by norm_num), Int.tmod_eq_emod hq (by norm_num)]
  generalize ms - our_epoch = d at hd0 hd1 ⊢
  have e1 : toUint64 (shl64 d 23) = 2 ^ 23 * d.toNat := by
    unfold toUint64 shl64 wrap64; omega
  have e2 : toUint64 (shl32 (shard % 2048) 12) = 2 ^ 12 * (shard % 2048).toNat := by
    unfold toUint64 shl32 wrap32; omega
  have e3 : toUint64 (seq % 4096) = (seq % 4096).toNat := by
    unfold toUint64; omega
  have o1 : 2 ^ 23 * d.toNat ||| 2 ^ 12 * (shard % 2048).toNat
      = 2 ^ 23 * d.toNat + 2 ^ 12 * (shard % 2048).toNat :=
    (Nat.mul_add_lt_is_or (by omega) _).symm
  have o2 : 2 ^ 12 * (2 ^ 11 * d.toNat + (shard % 2048).toNat) ||| (seq % 4096).toNat
      = 2 ^ 12 * (2 ^ 11 * d.toNat + (shard % 2048).toNat) + (seq % 4096).toNat :=
    (Nat.mul_add_lt_is_or (by omega) _).symm
  have e4 : 2 ^ 23 * d.toNat + 2 ^ 12 * (shard % 2048).toNat
      = 2 ^ 12 * (2 ^ 11 * d.toNat + (shard % 2048).toNat) := by omega
  simp only [or64, e1, e2, e3, o1]
  rw [toUint64_toInt64 _ (by omega), e4, o2]
  unfold toInt64
  congr 1
  omega

/-! ## `AppendValue` on memory: buffers that do not share the array of `u` -/

theorem set_append_add (P L : List Byte) (k : Nat) (x : Byte) :
    (P ++ L).set (P.length + k) x = P ++ L.set k x := by
  rw [List.set_append_right _ _ (Nat.le_add_right _ _), Nat.add_sub_cancel_left]

theorem getD_append_add (P L : List Byte) (k : Nat) (d : Byte) :
    (P ++ L).getD (P.length + k) d = L.getD k d := by
  simp [List.getD_eq_getElem?_getD, List.getElem?_append_right (Nat.le_add_right _ _)]

theorem read_of_Shows (m : Mem) (r : SliceRef) (data : List Byte) (h : Shows m r data) :
    m.read r = data := by
  obtain ⟨P, R, hA, hP, hd, _, _⟩ := h
  unfold Mem.read slice
  rw [hA, ← hP, ← hd, ← List.append_assoc, List.take_left' (by simp), List.drop_left]

theorem readSlice_of_ShowsApart (m : Mem) (s : Option SliceRef) (data : List Byte) (ua : Nat)
    (h : ShowsApart m s data ua) : (m.readSlice s).data = data := by
  cases s with
  | none => simpa [ShowsApart, Mem.readSlice, Slice.data] using h.symm
  | some r => simpa [Mem.readSlice, Slice.data] using read_of_Shows m r data h.1

theorem memAppend_ShowsApart (m : Mem) (s : Option SliceRef) (data xs : List Byte) (ua : Nat)
    (h : ShowsApart m s data ua) (hua : ua < m.next) (hxs : xs ≠ []) :
    ∃ r, (memAppend m s xs).2 = some r ∧ Shows (memAppend m s xs).1 r (data ++ xs) ∧
      r.arr ≠ ua ∧ (memAppend m s xs).1.arrays ua = m.arrays ua ∧
      ua < (memAppend m s xs).1.next := by
  cases s with
  | none =>
    have hd : data = [] := h
    subst hd
    refine ⟨⟨m.next, 0, xs.length, xs.length⟩, by simp [memAppend, hxs, Mem.alloc], ?_, ?_, ?_, ?_⟩
    · exact ⟨[], [], by simp [memAppend, hxs, Mem.alloc], rfl, rfl, Nat.le_refl _, by simp⟩
    · exact fun e => absurd hua (by simp [← e])
    · simp [memAppend, hxs, Mem.alloc, Function.update_noteq (Nat.ne_of_lt hua)]
    · simp [memAppend, hxs, Mem.alloc]; omega
  | some r =>
    obtain ⟨⟨P, R, hA, hP, hd, hlc, hcap⟩, hne⟩ := h
    by_cases hroom : r.len + xs.length ≤ r.cap
    · refine ⟨⟨r.arr, r.off, r.len + xs.length, r.cap⟩, by simp [memAppend, hroom], ?_, hne, ?_, ?_⟩
      · refine ⟨P, R.drop xs.length, ?_, hP, by simp [hd], hroom, ?_⟩
        · simp only [memAppend, hroom, if_true, Function.update_same, splice]
          rw [hA, ← hP, ← hd, ← List.append_assoc, List.take_left' (by simp)]
          have e : P.length + data.length + xs.length = (P ++ data).length + xs.length := by simp
          rw [e, List.drop_append]
          simp
        · simp only [List.length_drop]
          omega
      · simp [memAppend, hroom, Function.update_noteq (fun e => hne e.symm)]
      · simpa [memAppend, hroom] using hua
    · have hrd : m.read r = data := read_of_Shows m r data ⟨P, R, hA, hP, hd, hlc, hcap⟩
      refine ⟨⟨m.next, 0, (data ++ xs).length, (data ++ xs).length⟩,
        by simp [memAppend, hroom, Mem.alloc, hrd], ?_, ?_, ?_, ?_⟩
      · exact ⟨[], [], by simp [memAppend, hroom, Mem.alloc, hrd], rfl, rfl, Nat.le_refl _, by simp⟩
      · exact fun e => absurd hua (by simp [← e])
      · simp [memAppend, hroom, Mem.alloc, Function.update_noteq (Nat.ne_of_lt hua)]
      · simp [memAppend, hroom, Mem.alloc]; omega

theorem memAppendQuote_ShowsApart (m : Mem) (s : Option SliceRef) (data : List Byte)
    (quote : Int) (ua : Nat) (h : ShowsApart m s data ua) (hua : ua < m.next) :
    ShowsApart (memAppendQuote m s quote).1 (memAppendQuote m s quote).2
        (data ++ quoteBytes quote) ua ∧
      (memAppendQuote m s quote).1.arrays ua = m.arrays ua ∧
      ua < (memAppendQuote m s quote).1.next ∧
      (s ≠ none → (memAppendQuote m s quote).2 ≠ none) := by
  unfold memAppendQuote quoteBytes
  by_cases h2 : quote = 2
  · subst h2
    obtain ⟨r, hr, hs, hne, ha, hn⟩ := memAppend_ShowsApart m s data [34] ua h hua (by simp)
    simp only [if_true, show ¬ ((2 : Int) = 1) by decide, if_false, hr]
    exact ⟨⟨hs, hne⟩, ha, hn, fun _ => Option.some_ne_none _⟩
  · by_cases h1 : quote = 1
    · subst h1
      obtain ⟨r, hr, hs, hne, ha, hn⟩ := memAppend_ShowsApart m s data [39] ua h hua (by simp)
      simp only [if_true, show ¬ ((1 : Int) = 2) by decide, if_false, hr]
      exact ⟨⟨hs, hne⟩, ha, hn, fun _ => Option.some_ne_none _⟩
    · simp only [h1, h2, if_false, List.append_nil]
      refine ⟨h, ?_, hua, ?_⟩ <;> first | trivial | exact fun hs => hs

theorem Shows_of_valid (m : Mem) (r : SliceRef) (h1 : r.len ≤ r.cap)
    (h2 : r.off + r.cap ≤ (m.arrays r.arr).length) : Shows m r (m.read r) := by
  refine ⟨(m.arrays r.arr).take r.off, (m.arrays r.arr).drop (r.off + r.len), ?_, ?_, ?_, h1, ?_⟩
  · unfold Mem.read slice
    have e1 := List.take_append_drop (r.off + r.len) (m.arrays r.arr)
    have e2 := List.take_append_drop r.off (List.take (r.off + r.len) (m.arrays r.arr))
    have e3 : List.take r.off (List.take (r.off + r.len) (m.arrays r.arr))
        = List.take r.off (m.arrays r.arr) := by
      rw [List.take_take, Nat.min_eq_left (Nat.le_add_right _ _)]
    rw [e3] at e2
    rw [← List.append_assoc, e2, e1]
  · simp; omega
  · simp [Mem.read, slice]; omega
  · simp; omega

theorem encodeText_frame (m : Mem) (a ua : Nat) (hne : a ≠ ua) (P R UP UR : List Byte)
    (b0 b1 b2 b3 b4 b5 b6 b7 b8 b9 b10 b11 b12 b13 b14 b15 : Byte) (c uc : Nat)
    (ha : m.arrays a = P ++ (List.replicate 36 0 ++ R))
    (hu : m.arrays ua = UP ++ ([b0, b1, b2, b3, b4, b5, b6, b7, b8, b9, b10, b11, b12, b13, b14, b15] ++ UR)) :
    (encodeText m ⟨a, P.length, 36, c⟩ ⟨ua, UP.length, 16, uc⟩).arrays
        = Function.update m.arrays a
          (P ++ (String (fun _ _ => none) (some [b0, b1, b2, b3, b4, b5, b6, b7, b8, b9, b10, b11, b12, b13, b14, b15]) ++ R)) ∧
      (encodeText m ⟨a, P.length, 36, c⟩ ⟨ua, UP.length, 16, uc⟩).next = m.next := by
  rw [String_bytes]
  have hne2 : ua ≠ a := fun e => hne e.symm
  simp [encodeText, hexEncodeMem, hexEncodeMemLoop, Mem.store, Mem.index, subslice,
    Function.update_same, Function.update_noteq hne2, Function.update_idem, ha, hu,
    List.replicate,
    Nat.add_assoc, set_append_add, getD_append_add, List.getElem_append_right,
    List.getElem?_append_right, hextable_hi, hextable_lo, hexText,
    twoDigitHex]

theorem AppendValueMem_apart (appendNull : Mem → Option SliceRef → Int → Mem × Option SliceRef)
    (an : Slice → Int → Slice) (m : Mem) (ur : SliceRef) (b : Option SliceRef) (quote : Int)
    (hu : ur.len = 16) (huc : ur.off + ur.len ≤ (m.arrays ur.arr).length)
    (hun : ur.arr < m.next)
    (hb : ∀ r, b = some r →
      r.len ≤ r.cap ∧ r.off + r.cap ≤ (m.arrays r.arr).length ∧ r.arr ≠ ur.arr) :
    ∃ m1 r1, AppendValueMem appendNull m (some ur) b quote = (m1, some r1, none) ∧
      m1.read r1 = (m.readSlice b).data ++ quoteBytes quote ++ String an (some (m.read ur))
        ++ quoteBytes quote ∧
      m1.read ur = m.read ur := by
  obtain ⟨ua, uo, ul, uc⟩ := ur
  simp only at hu huc hun hb
  subst hu
  -- the bytes of `u`
  obtain ⟨UP, UR, hU, hUP, hUl, _, _⟩ :=
    Shows_of_valid m ⟨ua, uo, 16, 16⟩ (Nat.le_refl _) huc
  have hrd : m.read ⟨ua, uo, 16, uc⟩ = m.read ⟨ua, uo, 16, 16⟩ := rfl
  simp only at hU hUP hUl
  obtain ⟨b0, b1, b2, b3, b4, b5, b6, b7, b8, b9, b10, b11, b12, b13, b14, b15, hub⟩ :=
    list16 _ hUl
  rw [hrd, hub]
  rw [hub] at hU
  subst hUP
  -- the buffer
  have hb0 : ShowsApart m b (m.readSlice b).data ua := by
    cases b with
    | none => rfl
    | some r =>
      obtain ⟨h1, h2, h3⟩ := hb r rfl
      exact ⟨Shows_of_valid m r h1 h2, h3⟩
  generalize (m.readSlice b).data = bd at hb0 ⊢
  obtain ⟨hs1, ha1, hn1, _⟩ := memAppendQuote_ShowsApart m b bd quote ua hb0 hun
  obtain ⟨br, hr2, hs2, hne2, ha2, hn2⟩ :=
    memAppend_ShowsApart _ _ _ (List.replicate uuidHexLen 0) ua hs1 hn1 (by decide)
  generalize hm2 : (memAppend (memAppendQuote m b quote).1 (memAppendQuote m b quote).2
    (List.replicate uuidHexLen 0)).1 = m2 at hr2 hs2 ha2 hn2
  obtain ⟨a, o, l, c⟩ := br
  obtain ⟨P, R, hA, hP, hl, hlc, hcap⟩ := hs2
  simp only at hA hP hl hlc hcap hne2
  subst hP
  simp only [uuidHexLen] at hA hl
  have hbb : subslice ⟨a, P.length, l, c⟩ (l - uuidHexLen) l
      = ⟨a, (P ++ (bd ++ quoteBytes quote)).length, 36, c - (l - uuidHexLen)⟩ := by
    simp only [subslice, uuidHexLen, SliceRef.mk.injEq, true_and, List.length_append,
      List.length_replicate, and_true] at hl ⊢
    omega
  have hA2 : m2.arrays a = (P ++ (bd ++ quoteBytes quote)) ++ (List.replicate 36 0 ++ R) := by
    rw [hA]; simp only [List.append_assoc]
  have hU2 : m2.arrays ua = UP ++ ([b0, b1, b2, b3, b4, b5, b6, b7, b8, b9, b10, b11, b12, b13, b14, b15] ++ UR) := by rw [ha2, ha1, hU]
  obtain ⟨hf, hfn⟩ := encodeText_frame m2 a ua hne2 (P ++ (bd ++ quoteBytes quote)) R UP UR
    b0 b1 b2 b3 b4 b5 b6 b7 b8 b9 b10 b11 b12 b13 b14 b15 (c - (l - uuidHexLen)) uc hA2 hU2
  rw [← hbb] at hf hfn
  generalize hm3 : encodeText m2 (subslice ⟨a, P.length, l, c⟩ (l - uuidHexLen) l)
    ⟨ua, UP.length, 16, uc⟩ = m3 at hf hfn
  have hlen : (String (fun _ _ => none) (some [b0, b1, b2, b3, b4, b5, b6, b7, b8, b9, b10, b11, b12, b13, b14, b15])).length = 36 :=
    (String_isCanonicalText (fun _ _ => none) [b0, b1, b2, b3, b4, b5, b6, b7, b8, b9, b10, b11, b12, b13, b14, b15] rfl).1
  have hstr : String an (some [b0, b1, b2, b3, b4, b5, b6, b7, b8, b9, b10, b11, b12, b13, b14, b15])
      = String (fun _ _ => none) (some [b0, b1, b2, b3, b4, b5, b6, b7, b8, b9, b10, b11, b12, b13, b14, b15]) := by
    rw [String_bytes, String_bytes]
  have hs3 : ShowsApart m3 (some ⟨a, P.length, l, c⟩)
      (bd ++ quoteBytes quote ++ String an (some [b0, b1, b2, b3, b4, b5, b6, b7, b8, b9, b10, b11, b12, b13, b14, b15])) ua := by
    refine ⟨⟨P, R, ?_, rfl, ?_, hlc, hcap⟩, hne2⟩
    · rw [hf, hstr]; simp only [Function.update_same, List.append_assoc]
    · rw [← hl, hstr]; simp only [List.length_append, hlen]; rfl
  obtain ⟨hs4, ha4, _, hsome⟩ := memAppendQuote_ShowsApart m3 _ _ quote ua hs3 (by rw [hfn]; exact hn2)
  obtain ⟨r4, hr4⟩ := Option.ne_none_iff_exists'.mp (hsome (Option.some_ne_none _))
  rw [hr4] at hs4
  refine ⟨(memAppendQuote m3 (some ⟨a, P.length, l, c⟩) quote).1, r4, ?_, ?_, ?_⟩
  · simp only [AppendValueMem, uuidLen, ne_eq, not_true_eq_false, if_false, hm2, hr2, hm3, hr4]
  · exact read_of_Shows _ _ _ hs4.1
  · have e : (memAppendQuote m3 (some ⟨a, P.length, l, c⟩) quote).1.arrays ua = m.arrays ua := by
      rw [ha4, hf, Function.update_noteq (fun e => hne2 e.symm), ha2, ha1]
    have hub2 := hub
    simp only [Mem.read] at hub2 ⊢
    rw [e]
    exact hub2

/-! ## The claims -/

/-- Claim C1. For every shard (negative and `≥ 2048` included), every timestamp and
every outcome of the random fill, `NewUUID(shard, tm).Split()` returns, and the
shard id it returns is the non-negative remainder of `shard` modulo 2048: the number
in `[0, 2047]` that differs from `shard` by a multiple of 2048. -/
theorem NewUUID_Split_shard (rnd : Fin 8 → Byte) (shard : Int) (tm : Time) :
    (Split (NewUUID rnd shard tm)).map Prod.fst = some (shard % 2048) ∧
      0 ≤ shard % 2048 ∧ shard % 2048 ≤ 2047 ∧ (2048 : Int) ∣ shard - shard % 2048 := by
  refine ⟨by simp only [Split_NewUUID, Option.map_some'], by omega, by omega, ?_⟩
  exact Int.dvd_sub_of_emod_eq rfl

/-- Claim C2. For every shard, every outcome of the random fill and every timestamp
whose nanoseconds are in `[0, 999999999]` and whose Unix microsecond count fits in an
`int64` (negative counts included), `NewUUID(shard, tm).Split()` returns the time
`fromUnixMicrosecond(int64(uint64(unixMicrosecond(tm))))`, whose seconds are `tm.Unix()`
and whose nanoseconds are `tm.Nanosecond()` rounded down to a whole microsecond. -/
theorem NewUUID_Split_time (rnd : Fin 8 → Byte) (shard : Int) (tm : Time)
    (h0 : 0 ≤ tm.nsec) (h1 : tm.nsec < 1000000000)
    (hlo : -2 ^ 63 ≤ tm.sec * 1000000 + tm.nsec / 1000)
    (hhi : tm.sec * 1000000 + tm.nsec / 1000 < 2 ^ 63) :
    (Split (NewUUID rnd shard tm)).map Prod.snd
        = some (fromUnixMicrosecond (toInt64 (toUint64 (unixMicrosecond tm)))) ∧
      fromUnixMicrosecond (toInt64 (toUint64 (unixMicrosecond tm)))
        = ⟨tm.sec, tm.nsec - tm.nsec % 1000⟩ := by
  refine ⟨by simp only [Split_NewUUID, Option.map_some'], ?_⟩
  rw [unixMicrosecond_eq tm h0 hlo hhi, toInt64_toUint64 _ hlo hhi]
  exact fromUnixMicrosecond_eq tm.sec tm.nsec h0 h1 hlo hhi

/-- Witness of claim C2: shard 5 and 2021-01-01T00:00:00.123456Z (1609459200 s,
123456000 ns) are recovered exactly. -/
theorem NewUUID_Split_time_witness :
    Split (NewUUID (fun _ => 0) 5 ⟨1609459200, 123456000⟩)
      = some (5, ⟨1609459200, 123456000⟩) := by
  have h := NewUUID_Split_time (fun _ => 0) 5 ⟨1609459200, 123456000⟩
    (by decide) (by decide) (by decide) (by decide)
  simp only [Split_NewUUID, h.2]
  rfl

/-- Claim C3. For every UUID `u` of exactly 16 bytes, `ParseUUID` applied to the text
`u.String()` - which is the 36 bytes `u.AppendValue(nil, 0)` returns - gives `u` back
with a nil error. -/
theorem ParseUUID_String (appendNull : Slice → Int → Slice) (u : UUID) (h : len u = 16) :
    AppendValue appendNull u none 0 = (some (String appendNull u), none) ∧
      (String appendNull u).length = 36 ∧
      ParseUUID (some (String appendNull u)) = (u, none) := by
  obtain ⟨ub, rfl, hub⟩ := len_eq_sixteen u h
  refine ⟨?_, (String_isCanonicalText appendNull ub hub).1,
    ParseUUID_String_list appendNull ub hub⟩
  simp [String, AppendValue, uuidLen, hub, appendQuote, goAppend, Slice.data]

/-- Witness of claim C3, at the identifier of shard 5 whose other bytes are zero. -/
theorem ParseUUID_String_witness :
    ParseUUID (some (String (fun _ _ => none) (some [0, 5, 183, 203, 107, 231, 98, 64, 0, 5, 0, 0, 0, 0, 0, 0])))
      = (some [0, 5, 183, 203, 107, 231, 98, 64, 0, 5, 0, 0, 0, 0, 0, 0], none) :=
  (ParseUUID_String (fun _ _ => none)
    (some [0, 5, 183, 203, 107, 231, 98, 64, 0, 5, 0, 0, 0, 0, 0, 0]) (by decide)).2.2

/-- Claim C4. For every 36-character text `t` of lowercase hexadecimal digits with `-`
at offsets 8, 13, 18 and 23, `ParseUUID(t)` returns a nil error and a 16-byte value
whose `String()` is `t`. -/
theorem String_ParseUUID (appendNull : Slice → Int → Slice) (t : List Byte)
    (h : isCanonicalText t) :
    (ParseUUID (some t)).2 = none ∧ len (ParseUUID (some t)).1 = 16 ∧
      String appendNull (ParseUUID (some t)).1 = t := by
  obtain ⟨ub, hub, rfl⟩ := canonical_is_String appendNull t h
  rw [ParseUUID_String_list appendNull ub hub]
  exact ⟨rfl, hub, rfl⟩

/-- Witness of claim C4, at the text `0005b7cb-6be7-6240-0005-000000000000`. -/
theorem String_ParseUUID_witness :
    String (fun _ _ => none) (ParseUUID (some [48, 48, 48, 53, 98, 55, 99, 98, 45, 54, 98, 101, 55, 45, 54, 50, 52, 48, 45, 48, 48, 48, 53, 45, 48, 48, 48, 48, 48, 48, 48, 48, 48, 48, 48, 48])).1
      = [48, 48, 48, 53, 98, 55, 99, 98, 45, 54, 98, 101, 55, 45, 54, 50, 52, 48, 45, 48, 48, 48, 53, 45, 48, 48, 48, 48, 48, 48, 48, 48, 48, 48, 48, 48] :=
  (String_ParseUUID (fun _ _ => none) [48, 48, 48, 53, 98, 55, 99, 98, 45, 54, 98, 101, 55, 45, 54, 50, 52, 48, 45, 48, 48, 48, 53, 45, 48, 48, 48, 48, 48, 48, 48, 48, 48, 48, 48, 48]
    ⟨rfl, by decide⟩).2.2

/-- Claim C5, evaluated on the code: the 36-byte text `0005b7cb-6bz7-6240-0005-000000000000`
has the byte `z` (122), which is no hexadecimal digit, in its second group, and
`ParseUUID` returns a UUID with a nil error for it (byte 5 and nothing else is left
zero). -/
theorem ParseUUID_invalid_hex_nil_error :
    ¬ isHexDigit 122 ∧
      ParseUUID (some [48, 48, 48, 53, 98, 55, 99, 98, 45, 54, 98, 122, 55, 45, 54, 50, 52, 48, 45, 48, 48, 48, 53, 45, 48, 48, 48, 48, 48, 48, 48, 48, 48, 48, 48, 48])
        = (some [0, 5, 183, 203, 107, 0, 98, 64, 0, 5, 0, 0, 0, 0, 0, 0], none) := by
  refine ⟨by decide, ?_⟩
  rfl

/-- Claim C6. For every byte string whose length is not 36, `ParseUUID` returns the nil
UUID and a non-nil error (the one of `fmt.Errorf("sharding: invalid UUID: %s", b)`). -/
theorem ParseUUID_wrong_length (b : Slice) (h : len b ≠ 36) :
    ParseUUID b = (none, some (GoError.invalidUUIDText b)) := by
  simp only [ParseUUID, uuidHexLen, h, ne_eq, not_false_eq_true, if_true]

/-- Witness of claim C6: the nil slice, the empty string, a 32-character undashed
text and a 37-byte text. -/
theorem ParseUUID_wrong_length_witness :
    ParseUUID none = (none, some (GoError.invalidUUIDText none)) ∧
      ParseUUID (some []) = (none, some (GoError.invalidUUIDText (some []))) ∧
      (ParseUUID (some (List.replicate 32 48))).2 ≠ none ∧
      (ParseUUID (some (List.replicate 37 48))).1 = none :=
  ⟨ParseUUID_wrong_length none (by decide), ParseUUID_wrong_length (some []) (by decide),
    by rw [ParseUUID_wrong_length _ (by decide)]; exact Option.some_ne_none _,
    by rw [ParseUUID_wrong_length _ (by decide)]⟩

/-- Counterexample to claim C7: on a value of 17 bytes (a generated identifier of shard 5
followed by one more byte) `Split` does not fail; it returns shard 5 and the time. -/
theorem Split_seventeen_bytes :
    len (some [0, 5, 183, 203, 107, 231, 98, 64, 0, 5, 0, 0, 0, 0, 0, 0, 0]) ≠ 16 ∧
      Split (some [0, 5, 183, 203, 107, 231, 98, 64, 0, 5, 0, 0, 0, 0, 0, 0, 0])
        = some (5, ⟨1609459200, 123456000⟩) := by
  refine ⟨by decide, ?_⟩
  rfl

/-- Claim C7 as amended. `Split` checks no length and has no error result: it returns a
shard id and a time exactly when the value has at least 10 bytes, and what it returns
depends on bytes 0-9 only; with fewer than 10 bytes it does not return (the run-time
panic of an index out of range). -/
theorem Split_length (u : UUID) :
    ((Split u).isSome = true ↔ 10 ≤ len u) ∧ Split u = Split (some (u.data.take 10)) := by
  unfold len
  generalize hd : u.data = d
  have hu : Split u = Split (some d) := by
    cases u <;> simp [Split, Slice.data] at hd ⊢ <;> subst hd <;> rfl
  rw [hu]
  rcases d with _ | ⟨b0, _ | ⟨b1, _ | ⟨b2, _ | ⟨b3, _ | ⟨b4, _ | ⟨b5, _ | ⟨b6, _ | ⟨b7, _ | ⟨b8, _ | ⟨b9, l⟩⟩⟩⟩⟩⟩⟩⟩⟩⟩ <;>
    simp [Split, uint64BE, Slice.data]

/-- Claim C8. For every UUID `u` of exactly 16 bytes, `u.String()` has 36 characters,
`-` at offsets 8, 13, 18 and 23, a hexadecimal digit at each other offset, and its
five groups are the two-digit hexadecimal encodings of bytes 0-3, 4-5, 6-7, 8-9 and
10-15 of `u`. -/
theorem String_shape (appendNull : Slice → Int → Slice) (u : UUID) (h : len u = 16) :
    (String appendNull u).length = 36 ∧
      (∀ i, i < 36 → if i = 8 ∨ i = 13 ∨ i = 18 ∨ i = 23
        then (String appendNull u).getD i 0 = 45
        else isHexDigit ((String appendNull u).getD i 0)) ∧
      String appendNull u = hexText (slice u.data 0 4) ++ [45] ++ hexText (slice u.data 4 6)
        ++ [45] ++ hexText (slice u.data 6 8) ++ [45] ++ hexText (slice u.data 8 10) ++ [45]
        ++ hexText (slice u.data 10 16) := by
  obtain ⟨ub, rfl, hub⟩ := len_eq_sixteen u h
  obtain ⟨hl, hc⟩ := String_isCanonicalText appendNull ub hub
  refine ⟨hl, ?_, String_groups appendNull ub hub⟩
  intro i hi
  have := hc i hi
  split
  · next hd => rwa [if_pos hd] at this
  · next hd =>
    rw [if_neg hd] at this
    exact Or.inl this

/-- Witness of claim C8: the text of the identifier of shard 5 generated at
2021-01-01T00:00:00.123456Z with a zero random fill is `0005b7cb-6be7-6240-0005-000000000000`. -/
theorem String_shape_witness :
    String (fun _ _ => none) (some [0, 5, 183, 203, 107, 231, 98, 64, 0, 5, 0, 0, 0, 0, 0, 0])
      = [48, 48, 48, 53, 98, 55, 99, 98, 45, 54, 98, 101, 55, 45, 54, 50, 52, 48, 45, 48, 48, 48, 53, 45, 48, 48, 48, 48, 48, 48, 48, 48, 48, 48, 48, 48] := by
  rw [(String_shape (fun _ _ => none)
    (some [0, 5, 183, 203, 107, 231, 98, 64, 0, 5, 0, 0, 0, 0, 0, 0]) (by decide)).2.2]
  decide

/-- Claim C9, evaluated on the code: for shard `-1` and a random fill of zero bytes, byte 8
of `NewUUID` is `0xff` - its top five bits are not those of the random byte `0x00`
(the claim gives `0x07`); bytes 0-7 and 9-15 are as the claim says. -/
theorem NewUUID_negative_shard :
    NewUUID (fun _ => 0) (-1) ⟨1609459200, 123456000⟩
      = some [0, 5, 183, 203, 107, 231, 98, 64, 255, 255, 0, 0, 0, 0, 0, 0] := by
  rfl

/-- Claim C10. For the nil UUID, every buffer and every quote mode, `AppendValue` returns
what `types.AppendNull(b, quote)` returns, with a nil error. The nil UUID is not the
all-zero UUID, whose text is `00000000-0000-0000-0000-000000000000`. -/
theorem AppendValue_nil (appendNull : Slice → Int → Slice) (b : Slice) (quote : Int) :
    AppendValue appendNull none b quote = (appendNull b quote, none) ∧
      (none : UUID) ≠ some (List.replicate 16 0) ∧
      AppendValue appendNull (some (List.replicate 16 0)) none 0
        = (some [48, 48, 48, 48, 48, 48, 48, 48, 45, 48, 48, 48, 48, 45, 48, 48, 48, 48, 45, 48, 48, 48, 48, 45, 48, 48, 48, 48, 48, 48, 48, 48, 48, 48, 48, 48], none) := by
  refine ⟨rfl, by simp, ?_⟩
  rfl

/-- Claim C11. For every buffer and quote mode, `AppendValue` returns a non-nil error if
and only if the UUID is non-nil and its length is not 16; whenever the error is non-nil
the returned buffer is nil. -/
theorem AppendValue_error_iff (appendNull : Slice → Int → Slice) (u : UUID) (b : Slice)
    (quote : Int) :
    ((AppendValue appendNull u b quote).2 ≠ none ↔ (u ≠ none ∧ len u ≠ 16)) ∧
      ((AppendValue appendNull u b quote).2 = none ∨
        (AppendValue appendNull u b quote).1 = none) := by
  cases u with
  | none => simp [AppendValue]
  | some ub =>
    by_cases h : ub.length = 16
    · rw [AppendValue_list appendNull ub h]
      simp [len, Slice.data, h]
    · rw [AppendValue_wrong_length appendNull ub h]
      simp [len, Slice.data, h]

/-- Claim C12, evaluated on the code: for the non-nil one-byte UUID `[1]`, whose length is
not 16, `Value()` returns the empty string with a nil error, while `AppendValue` returns
an error for the same value. -/
theorem Value_one_byte (appendNull : Slice → Int → Slice) :
    Value appendNull (some [1]) = ([], none) ∧
      (AppendValue appendNull (some [1]) none 0).2 ≠ none := by
  refine ⟨Value_of_wrong_length appendNull [1] (by decide), ?_⟩
  rw [AppendValue_wrong_length appendNull [1] (by decide)]
  exact Option.some_ne_none _

/-- Quoting on values, that is when `u` and `b` have storage of their own: for a UUID of
16 bytes `AppendValue(b, quote)` is `b`, the quote bytes, the 36 characters of
`u.String()` and the quote bytes again, with a nil error. -/
theorem AppendValue_quote (appendNull : Slice → Int → Slice) (u : UUID) (h : len u = 16)
    (b : Slice) (quote : Int) :
    AppendValue appendNull u b quote
        = (some (b.data ++ quoteBytes quote ++ String appendNull u ++ quoteBytes quote), none) ∧
      (String appendNull u).length = 36 ∧
      len (AppendValue appendNull u b quote).1 = len b + 36 + 2 * (quoteBytes quote).length ∧
      quoteBytes quote = (if quote = 1 then [39] else if quote = 2 then [34] else []) := by
  obtain ⟨ub, rfl, hub⟩ := len_eq_sixteen u h
  have hs := (String_isCanonicalText appendNull ub hub).1
  refine ⟨AppendValue_list appendNull ub hub b quote, hs, ?_, rfl⟩
  rw [AppendValue_list appendNull ub hub b quote]
  simp only [len, Slice.data, Option.getD_some, List.length_append, hs]
  omega

/-- Quoting on values, an instance: the identifier of shard 5 appended to the buffer `id=`
in single quotes. -/
theorem AppendValue_quote_witness :
    AppendValue (fun _ _ => none) (some [0, 5, 183, 203, 107, 231, 98, 64, 0, 5, 0, 0, 0, 0, 0, 0]) (some [105, 100, 61]) 1
      = (some ([105, 100, 61] ++ [39] ++ [48, 48, 48, 53, 98, 55, 99, 98, 45, 54, 98, 101, 55, 45, 54, 50, 52, 48, 45, 48, 48, 48, 53, 45, 48, 48, 48, 48, 48, 48, 48, 48, 48, 48, 48, 48] ++ [39]), none) := by
  rw [(AppendValue_quote (fun _ _ => none) (some [0, 5, 183, 203, 107, 231, 98, 64, 0, 5, 0, 0, 0, 0, 0, 0]) (by decide) (some [105, 100, 61]) 1).1]
  decide

/-- Counterexample to claim C13: `u` is the 16-byte identifier of shard 5, alone in its
backing array, the buffer is `b = []byte(u)[:0]` (empty, with the 16 bytes of `u` as its
spare capacity) and `quote = 1`. The first `append` writes the quote into `u[0]`, and the
text returned starts `2705b7cb`, not `0005b7cb`: it is not `b`, the quote, `u.String()`
and the quote. -/
theorem AppendValueMem_shared_array :
    (AppendValueMem (fun m _ _ => (m, none))
        ⟨fun i => if i = 0 then [0, 5, 183, 203, 107, 231, 98, 64, 0, 5, 0, 0, 0, 0, 0, 0] else [], 1⟩
        (some ⟨0, 0, 16, 16⟩) (some ⟨0, 0, 0, 16⟩) 1).2.2 = none ∧
      ((AppendValueMem (fun m _ _ => (m, none))
        ⟨fun i => if i = 0 then [0, 5, 183, 203, 107, 231, 98, 64, 0, 5, 0, 0, 0, 0, 0, 0] else [], 1⟩
        (some ⟨0, 0, 16, 16⟩) (some ⟨0, 0, 0, 16⟩) 1).1.readSlice
          (AppendValueMem (fun m _ _ => (m, none))
            ⟨fun i => if i = 0 then [0, 5, 183, 203, 107, 231, 98, 64, 0, 5, 0, 0, 0, 0, 0, 0] else [], 1⟩
            (some ⟨0, 0, 16, 16⟩) (some ⟨0, 0, 0, 16⟩) 1).2.1)
        = some [39, 50, 55, 48, 53, 98, 55, 99, 98, 45, 54, 98, 101, 55, 45, 54, 50, 52, 48, 45, 48, 48, 48, 53, 45, 48, 48, 48, 48, 48, 48, 48, 48, 48, 48, 48, 48, 39] ∧
      [39, 50, 55, 48, 53, 98, 55, 99, 98, 45, 54, 98, 101, 55, 45, 54, 50, 52, 48, 45, 48, 48, 48, 53, 45, 48, 48, 48, 48, 48, 48, 48, 48, 48, 48, 48, 48, 39]
        ≠ [] ++ quoteBytes 1 ++ String (fun _ _ => none) (some [0, 5, 183, 203, 107, 231, 98, 64, 0, 5, 0, 0, 0, 0, 0, 0]) ++ quoteBytes 1 := by
  decide!

/-- Claim C13 as amended. For every UUID `u` of exactly 16 bytes, every buffer `b` that is
nil or a slice of a backing array other than the one `u` lies in, and every `quote`,
`AppendValue(b, quote)` returns, with a nil error, a slice showing `b` followed by the quote
bytes, the 36 characters of `u.String()` and the quote bytes again (the single quote for
`quote = 1`, the double quote for `quote = 2`, nothing otherwise), of length
`len(b) + 36 + 2 * len(q)`; `u` is left as it was. -/
theorem AppendValueMem_quote (appendNull : Mem → Option SliceRef → Int → Mem × Option SliceRef)
    (an : Slice → Int → Slice) (m : Mem) (ur : SliceRef) (b : Option SliceRef) (quote : Int)
    (hu : ur.len = 16) (huc : ur.off + ur.len ≤ (m.arrays ur.arr).length)
    (hun : ur.arr < m.next)
    (hb : ∀ r, b = some r →
      r.len ≤ r.cap ∧ r.off + r.cap ≤ (m.arrays r.arr).length ∧ r.arr ≠ ur.arr) :
    ∃ m1 r1, AppendValueMem appendNull m (some ur) b quote = (m1, some r1, none) ∧
      m1.read r1 = (m.readSlice b).data ++ quoteBytes quote ++ String an (some (m.read ur))
        ++ quoteBytes quote ∧
      (m1.read r1).length = len (m.readSlice b) + 36 + 2 * (quoteBytes quote).length ∧
      quoteBytes quote = (if quote = 1 then [39] else if quote = 2 then [34] else []) ∧
      m1.read ur = m.read ur := by
  obtain ⟨m1, r1, h1, h2, h3⟩ := AppendValueMem_apart appendNull an m ur b quote hu huc hun hb
  refine ⟨m1, r1, h1, h2, ?_, rfl, h3⟩
  have hl : (m.read ur).length = 16 := by
    obtain ⟨_, _, _, _, hUl, _, _⟩ :=
      Shows_of_valid m ⟨ur.arr, ur.off, ur.len, ur.len⟩ (Nat.le_refl _) huc
    exact hUl.trans hu
  have hs := (String_isCanonicalText an (m.read ur) hl).1
  rw [h2]
  simp only [List.length_append, hs, len]
  omega

/-- Witness of claim C13 as amended: the buffer `id=` with 61 bytes of spare capacity in
array 0, the identifier of shard 5 in array 1, double quotes; both appends write in place. -/
theorem AppendValueMem_quote_witness :
    ∃ m1 r1, AppendValueMem (fun m _ _ => (m, none))
        ⟨fun i => if i = 0 then [105, 100, 61] ++ List.replicate 61 7
          else if i = 1 then [0, 5, 183, 203, 107, 231, 98, 64, 0, 5, 0, 0, 0, 0, 0, 0] else [], 2⟩
        (some ⟨1, 0, 16, 16⟩) (some ⟨0, 0, 3, 64⟩) 2 = (m1, some r1, none) ∧
      m1.read r1 = [105, 100, 61] ++ [34] ++ String (fun _ _ => none) (some [0, 5, 183, 203, 107, 231, 98, 64, 0, 5, 0, 0, 0, 0, 0, 0]) ++ [34] := by
  obtain ⟨m1, r1, h1, h2, _⟩ := AppendValueMem_quote (fun m _ _ => (m, none)) (fun _ _ => none)
    ⟨fun i => if i = 0 then [105, 100, 61] ++ List.replicate 61 7
      else if i = 1 then [0, 5, 183, 203, 107, 231, 98, 64, 0, 5, 0, 0, 0, 0, 0, 0] else [], 2⟩
    ⟨1, 0, 16, 16⟩ (some ⟨0, 0, 3, 64⟩) 2 rfl (by decide) (by decide)
    (by intro r hr; cases hr; decide)
  exact ⟨m1, r1, h1, h2⟩

/-- Claim C14. For every UUID `u` of exactly 16 bytes and every text obtained from
`u.String()` by turning any of its letters `a`-`f` to upper case, `ParseUUID` returns `u`
with a nil error. -/
theorem ParseUUID_caseVariant (appendNull : Slice → Int → Slice) (u : UUID) (h : len u = 16)
    (t : List Byte) (ht : isCaseVariantOf (String appendNull u) t) :
    ParseUUID (some t) = (u, none) := by
  obtain ⟨ub, rfl, hub⟩ := len_eq_sixteen u h
  obtain ⟨b0, b1, b2, b3, b4, b5, b6, b7, b8, b9, b10, b11, b12, b13, b14, b15, rfl⟩ :=
    list16 ub hub
  exact ParseUUID_caseVariant_bytes appendNull _ _ _ _ _ _ _ _ _ _ _ _ _ _ _ _ t ht

/-- Witness of claim C14: `0005B7cb-6bE7-6240-0005-000000000000`, a mixed-case variant of
the text of the identifier of shard 5, decodes to that identifier. -/
theorem ParseUUID_caseVariant_witness :
    ParseUUID (some [48, 48, 48, 53, 66, 55, 99, 98, 45, 54, 98, 69, 55, 45, 54, 50, 52, 48, 45, 48, 48, 48, 53, 45, 48, 48, 48, 48, 48, 48, 48, 48, 48, 48, 48, 48])
      = (some [0, 5, 183, 203, 107, 231, 98, 64, 0, 5, 0, 0, 0, 0, 0, 0], none) :=
  ParseUUID_caseVariant (fun _ _ => none) (some [0, 5, 183, 203, 107, 231, 98, 64, 0, 5, 0, 0, 0, 0, 0, 0]) (by decide)
    [48, 48, 48, 53, 66, 55, 99, 98, 45, 54, 98, 69, 55, 45, 54, 50, 52, 48, 45, 48, 48, 48, 53, 45, 48, 48, 48, 48, 48, 48, 48, 48, 48, 48, 48, 48] (by decide)

/-- Counterexample to claim C15: both timestamps are at or after the Unix epoch,
`unixMicrosecond` of the first (second 9223372036855, whose microsecond count exceeds
`2^63 - 1` and wraps to a negative `int64`) is smaller than that of the second (one
microsecond after the epoch), and yet the bytes of the first identifier are not smaller. -/
theorem NewUUID_far_future_not_smaller :
    (0 : Int) ≤ 9223372036855 ∧
      unixMicrosecond ⟨9223372036855, 0⟩ < unixMicrosecond ⟨0, 1000⟩ ∧
      bytesLess (NewUUID (fun _ => 0) 0 ⟨9223372036855, 0⟩).data
        (NewUUID (fun _ => 0) 0 ⟨0, 1000⟩).data = false := by
  decide

/-- Claim C15 as amended. For all shards, all outcomes of the random fill and all
timestamps `t1`, `t2` at or after the Unix epoch whose Unix microsecond counts fit in an
`int64`, if `unixMicrosecond(t1) < unixMicrosecond(t2)` then the 16 bytes of
`NewUUID(s1, t1)` are strictly smaller than those of `NewUUID(s2, t2)` in bytewise order. -/
theorem NewUUID_time_sortable (rnd1 rnd2 : Fin 8 → Byte) (s1 s2 : Int) (t1 t2 : Time)
    (hs1 : 0 ≤ t1.sec) (hn1 : 0 ≤ t1.nsec) (hf1 : t1.sec * 1000000 + t1.nsec / 1000 < 2 ^ 63)
    (_hs2 : 0 ≤ t2.sec) (_hn2 : 0 ≤ t2.nsec)
    (_hf2 : t2.sec * 1000000 + t2.nsec / 1000 < 2 ^ 63)
    (hlt : unixMicrosecond t1 < unixMicrosecond t2) :
    len (NewUUID rnd1 s1 t1) = 16 ∧ len (NewUUID rnd2 s2 t2) = 16 ∧
      bytesLess (NewUUID rnd1 s1 t1).data (NewUUID rnd2 s2 t2).data = true := by
  refine ⟨?_, ?_, ?_⟩
  · rw [NewUUID_bytes]; rfl
  · rw [NewUUID_bytes]; rfl
  · apply NewUUID_bytesLess rnd1 rnd2 s1 s2 t1 t2 _ hlt
    rw [unixMicrosecond_eq t1 hn1 (by omega) hf1]
    omega

/-- Witness of claim C15: two identifiers one microsecond apart, the earlier one on
shard 2047 with all random bits set, the later one on shard 0 with none. -/
theorem NewUUID_time_sortable_witness :
    bytesLess (NewUUID (fun _ => 255) 2047 ⟨1609459200, 123456000⟩).data
      (NewUUID (fun _ => 0) 0 ⟨1609459200, 123457000⟩).data = true :=
  (NewUUID_time_sortable (fun _ => 255) (fun _ => 0) 2047 0 ⟨1609459200, 123456000⟩
    ⟨1609459200, 123457000⟩ (by decide) (by decide) (by norm_num) (by decide) (by decide)
    (by norm_num) (by decide)).2.2

/-- Counterexample to claim C16: for the offset `d = 2^40`, which is below `2^41`, with
shard 0 and sequence 0, the id is `-2^63` and `id >> 23` is `-2^40`, not `d`. -/
theorem next_id_offset_two_pow_40 :
    (0 : Int) ≤ 2 ^ 40 ∧ (2 : Int) ^ 40 < 2 ^ 41 ∧
      _next_id (our_epoch + 2 ^ 40) 0 0 = -2 ^ 63 ∧
      (_next_id (our_epoch + 2 ^ 40) 0 0) >>> (23 : Nat) = -2 ^ 40 ∧
      (_next_id (our_epoch + 2 ^ 40) 0 0) >>> (23 : Nat) ≠ 2 ^ 40 := by
  decide

/-- Claim C16 as amended. For a millisecond offset `d` with `0 ≤ d < 2^41`, a shard id
`≥ 0` and a sequence value `≥ 0`, the id of `_next_id` gives the three fields back:
`(id >> 23) mod 2^41 = d`, `(id >> 12) mod 2048 = shard mod 2048` and
`id mod 4096 = seq mod 4096` (non-negative remainders). `id >> 23` is `d` itself when
`d < 2^40`; from `2^40` on the id is negative and `id >> 23` is `d - 2^41`. -/
theorem next_id_fields (d shard seq : Int) (hd0 : 0 ≤ d) (hd1 : d < 2 ^ 41) (hs : 0 ≤ shard)
    (hq : 0 ≤ seq) :
    (_next_id (our_epoch + d) shard seq >>> (23 : Nat)) % 2 ^ 41 = d ∧
      (_next_id (our_epoch + d) shard seq >>> (12 : Nat)) % 2048 = shard % 2048 ∧
      _next_id (our_epoch + d) shard seq % 4096 = seq % 4096 ∧
      _next_id (our_epoch + d) shard seq >>> (23 : Nat) = (if d < 2 ^ 40 then d else d - 2 ^ 41) := by
  have hv := next_id_value (our_epoch + d) shard seq (by omega) (by omega) hs hq
  rw [show our_epoch + d - our_epoch = d by omega] at hv
  rw [hv, Int.shiftRight_eq_div_pow, Int.shiftRight_eq_div_pow]
  unfold wrap64
  norm_num
  split <;> omega

/-- Witness of claim C16 as amended: offset 5, shard 3, sequence 7. -/
theorem next_id_fields_witness :
    _next_id (our_epoch + 5) 3 7 = 41955335 ∧
      (_next_id (our_epoch + 5) 3 7 >>> (23 : Nat)) % 2 ^ 41 = 5 := by
  have h := next_id_fields 5 3 7 (by decide) (by norm_num) (by decide) (by decide)
  exact ⟨by decide, h.1⟩

/-- Claim C17. For a shard id in `[0, 2047]`, millisecond offsets `d1`, `d2` in `[0, 2^40)`
and sequence values in `[0, 4095]`: if `d1 < d2`, or `d1 = d2` and `seq1 < seq2`, the id
of `(d1, shard, seq1)` is strictly smaller than the id of `(d2, shard, seq2)`. -/
theorem next_id_monotone (shard d1 d2 seq1 seq2 : Int) (hs0 : 0 ≤ shard) (hs1 : shard ≤ 2047)
    (hd1 : 0 ≤ d1) (hd1u : d1 < 2 ^ 40) (hd2 : 0 ≤ d2) (hd2u : d2 < 2 ^ 40)
    (hq1 : 0 ≤ seq1) (hq1u : seq1 ≤ 4095) (hq2 : 0 ≤ seq2) (hq2u : seq2 ≤ 4095)
    (h : d1 < d2 ∨ (d1 = d2 ∧ seq1 < seq2)) :
    _next_id (our_epoch + d1) shard seq1 < _next_id (our_epoch + d2) shard seq2 := by
  have v1 := next_id_value (our_epoch + d1) shard seq1 (by omega) (by omega) hs0 hq1
  have v2 := next_id_value (our_epoch + d2) shard seq2 (by omega) (by omega) hs0 hq2
  rw [show our_epoch + d1 - our_epoch = d1 by omega] at v1
  rw [show our_epoch + d2 - our_epoch = d2 by omega] at v2
  rw [v1, v2]
  unfold wrap64
  omega

/-- Witness of claim C17: shard 3, the same millisecond with sequences 7 and 8, and the
next millisecond with sequence 0. -/
theorem next_id_monotone_witness :
    _next_id (our_epoch + 5) 3 7 < _next_id (our_epoch + 5) 3 8 ∧
      _next_id (our_epoch + 5) 3 4095 < _next_id (our_epoch + 6) 3 0 :=
  ⟨next_id_monotone 3 5 5 7 8 (by decide) (by decide) (by decide) (by norm_num) (by decide)
      (by norm_num) (by decide) (by decide) (by decide) (by decide) (Or.inr ⟨rfl, by decide⟩),
    next_id_monotone 3 5 6 4095 0 (by decide) (by decide) (by decide) (by norm_num) (by decide)
      (by norm_num) (by decide) (by decide) (by decide) (by decide) (Or.inl (by decide))⟩

/-- Claim C18, evaluated on the code: for every clock reading and every shard id the
sequence values 1 and 4097 give the same identifier, from `_next_id` and from `next_id`;
nothing signals the wrap of the sequence field (the functions return a `bigint`). -/
theorem next_id_duplicate (ms shardId : Int) :
    (1 : Int) ≠ 4097 ∧ _next_id ms shardId 1 = _next_id ms shardId 4097 ∧
      next_id ms shardId 1 = next_id ms shardId 4097 := by
  have e : Int.tmod 4097 max_seq_id = Int.tmod 1 max_seq_id := by decide
  refine ⟨by decide, ?_, ?_⟩
  · simp only [_next_id, e]
  · simp only [next_id, _next_id, e]

/-- Claim C19. For every key and every cluster built with a shard count `N ≥ 1`,
`Shard(key)` is the handle of the logical shard whose index is the non-negative remainder
of `key` modulo `N` (the number in `[0, N)` that differs from `key` by a multiple of `N`),
bound to one of the cluster's connections. -/
theorem Shard_index (dbs : List Nat) (nshards : Int) (cl : Cluster) (key : Int)
    (h : NewCluster dbs nshards = some cl) :
    1 ≤ nshards ∧ (cl.Shard key).index = key % nshards ∧ 0 ≤ (cl.Shard key).index ∧
      (cl.Shard key).index < nshards ∧ nshards ∣ key - (cl.Shard key).index ∧
      ∃ c, c ∈ dbs ∧ (cl.Shard key).connection = some c := by
  unfold NewCluster at h
  split at h
  · exact absurd h (by simp)
  · next hc =>
    simp only [Option.some.injEq] at h
    subst h
    have hn : 1 ≤ nshards := by omega
    have hd : dbs ≠ [] := fun e => hc (Or.inl e)
    have hpos : 0 < dbs.length := List.length_pos.mpr hd
    have hidx : (Cluster.Shard ⟨dbs, nshards⟩ key).index = key % nshards := rfl
    rw [hidx]
    refine ⟨hn, rfl, Int.emod_nonneg _ (by omega), Int.emod_lt_of_pos _ (by omega),
      Int.dvd_sub_of_emod_eq rfl, ?_⟩
    have hlt : ((key % nshards) % (dbs.length : Int)).toNat < dbs.length := by
      have h1 := Int.emod_lt_of_pos (key % nshards) (show (0 : Int) < dbs.length by omega)
      have h2 := Int.emod_nonneg (key % nshards) (show (dbs.length : Int) ≠ 0 by omega)
      omega
    exact ⟨dbs.get ⟨_, hlt⟩, List.get_mem _ _ _, List.get?_eq_get hlt⟩

/-- Witness of claim C19: with 1 connection and 2 logical shards, `Shard(1)` and `Shard(3)`
are logical shard 1, `Shard(2)` is logical shard 0 and `Shard(-3)` is logical shard 1. -/
theorem Shard_index_witness :
    (Cluster.Shard ⟨[0], 2⟩ 1).index = 1 ∧ (Cluster.Shard ⟨[0], 2⟩ 3).index = 1 ∧
      (Cluster.Shard ⟨[0], 2⟩ 2).index = 0 ∧ (Cluster.Shard ⟨[0], 2⟩ (-3)).index = 1 :=
  ⟨(Shard_index [0] 2 ⟨[0], 2⟩ 1 rfl).2.1, (Shard_index [0] 2 ⟨[0], 2⟩ 3 rfl).2.1,
    (Shard_index [0] 2 ⟨[0], 2⟩ 2 rfl).2.1, (Shard_index [0] 2 ⟨[0], 2⟩ (-3) rfl).2.1⟩

/-- Claim C20, evaluated on the code: whatever the receiver holds, `u.Scan(nil)` sets it to
the nil UUID and then panics at the type assertion `b.([]byte)`; it does not return. -/
theorem Scan_nil_panics (u : UUID) : Scan u Iface.nil = ScanResult.panicked none := by
  rfl

end Sharding
